import Mathlib

/-!
Verification of the PhotoSync transfer/session engine.

This file shallowly embeds the core server code (`server/SocketIOServer` +
`PhotoWorker`, `device-token-manager-server`, the rendition cache and
folder-hierarchy helpers in `server.js`, and the WebRTC peer-to-peer
manager) as executable Lean definitions, and proves properties of the
embedded code.

Modelling conventions:
* JS numbers used as integer quantities (times in ms, sizes, counts) are
  `Nat` or `Int`; byte buffers are `List Nat`.
* JS `Map` objects are association lists preserving insertion order.
* Cryptographic hashes (`md5`) and the image resampler (`sharp`) are
  opaque parameters: the code treats them as black boxes, so theorems
  are stated for every choice of those functions.
* Fallible operations return `Except`/`Option`; a thrown JS exception is
  an `Except.error`.
-/

namespace PhotoSync

/-- Bytes of a Node `Buffer`. -/
abbrev Bytes := List Nat

/-- Association-list lookup (JS `Map.get`). -/
def alookup {α : Type} (m : List (String × α)) (k : String) : Option α :=
  match m.find? (fun e => e.1 == k) with
  | some e => some e.2
  | none => none

/-- Association-list update (JS `Map.set`): replaces in place, else appends,
preserving insertion order as a JS `Map` does. -/
def aset {α : Type} (m : List (String × α)) (k : String) (v : α) :
    List (String × α) :=
  match m with
  | [] => [(k, v)]
  | e :: rest => if e.1 == k then (k, v) :: rest else e :: aset rest k v

theorem alookup_cons_pos {α : Type} (e : String × α) (rest : List (String × α))
    (k : String) (h : e.1 = k) : alookup (e :: rest) k = some e.2 := by
  simp [alookup, List.find?_cons_of_pos, h]

theorem alookup_cons_neg {α : Type} (e : String × α) (rest : List (String × α))
    (k : String) (h : ¬ e.1 = k) : alookup (e :: rest) k = alookup rest k := by
  have hne : (e.1 == k) = false := by simp [h]
  simp [alookup, List.find?_cons_of_neg, hne]

theorem alookup_aset_self {α : Type} (m : List (String × α)) (k : String) (v : α) :
    alookup (aset m k v) k = some v := by
  induction m with
  | nil => simp [alookup, aset]
  | cons e rest ih =>
    by_cases h : e.1 = k
    · simp [aset, h, alookup_cons_pos]
    · have hne : (e.1 == k) = false := by simp [h]
      rw [aset]
      rw [hne]
      simp only [Bool.false_eq_true, if_false]
      rw [alookup_cons_neg e _ k h]
      exact ih

theorem alookup_aset_ne {α : Type} (m : List (String × α)) (k k' : String)
    (v : α) (h : k ≠ k') : alookup (aset m k v) k' = alookup m k' := by
  induction m with
  | nil =>
    simp [aset]
    exact alookup_cons_neg (k, v) [] k' h
  | cons e rest ih =>
    by_cases he : e.1 = k
    · have heq : (e.1 == k) = true := by simp [he]
      rw [aset, heq]
      simp only [if_true]
      rw [alookup_cons_neg (k, v) rest k' h]
      rw [alookup_cons_neg e rest k' (by rw [he]; exact h)]
    · have hne : (e.1 == k) = false := by simp [he]
      rw [aset, hne]
      simp only [Bool.false_eq_true, if_false]
      by_cases he' : e.1 = k'
      · rw [alookup_cons_pos e _ k' he', alookup_cons_pos e rest k' he']
      · rw [alookup_cons_neg e _ k' he', alookup_cons_neg e rest k' he']
        exact ih

/-! ## Device token manager (`device-token-manager-server.js`)

A token record is one entry of the `tokens` array of `device-tokens.json`.
Only the fields the server reads are modelled. -/

structure TokenRec where
  token : String
  deviceId : String
  deviceName : String
  userId : String
  userEmail : String
  active : Bool
  expiresAt : Nat
deriving DecidableEq

/-- Cache state of `DeviceTokenManagerServer` (`this.cache`,
`this.cacheTimestamp`). -/
structure TMState where
  cache : Option (List TokenRec)
  cacheTimestamp : Nat
deriving DecidableEq

/-- `CACHE_TTL = 5000` ms. -/
def CACHE_TTL : Nat := 5000

/-- `readTokens()`: serve from the short-TTL cache when fresh, else re-read
the token file (`file` is the parsed `tokens` array on disk). -/
def readTokens (file : List TokenRec) (st : TMState) (now : Nat) :
    List TokenRec × TMState :=
  match st.cache with
  | some c =>
    if now - st.cacheTimestamp < CACHE_TTL then (c, st)
    else (file, ⟨some file, now⟩)
  | none => (file, ⟨some file, now⟩)

/-- `refreshCache()`: `cacheTimestamp = 0` then `readTokens()`. -/
def refreshCache (file : List TokenRec) (st : TMState) (now : Nat) :
    List TokenRec × TMState :=
  readTokens file { st with cacheTimestamp := 0 } now

/-- Hex digit test, case-insensitive, as in the regexes
`/^[a-f0-9]{64}$/i` and `/^[0-9a-f]+$/i`. -/
def isHexChar (c : Char) : Bool :=
  (('0' ≤ c) && (c ≤ '9')) || (('a' ≤ c) && (c ≤ 'f')) || (('A' ≤ c) && (c ≤ 'F'))

def isHexString (s : String) : Bool := s.data.all isHexChar

/-- The credential taken from `socket.handshake.auth.token`: it may be
absent, present but not a string, or a string. -/
inductive Cred where
  | missing
  | nonString
  | str (s : String)
deriving DecidableEq

/-- Result of `validateToken`. -/
inductive ValidationRes where
  | invalid (reason : String)
  | ok (t : TokenRec)
deriving DecidableEq

/-- The pure core of `validateToken` once the `tokens` array is in hand. -/
def validateTokenWith (tokens : List TokenRec) (now : Nat) : Cred → ValidationRes
  | .missing => .invalid "INVALID_FORMAT"
  | .nonString => .invalid "INVALID_FORMAT"
  | .str v =>
    if v.length = 0 then .invalid "INVALID_FORMAT"
    else if !(v.length == 64 && isHexString v) then .invalid "INVALID_FORMAT"
    else
      match tokens.find? (fun t => t.token == v) with
      | none => .invalid "TOKEN_NOT_FOUND"
      | some t =>
        if !t.active then .invalid "TOKEN_REVOKED"
        else if t.expiresAt < now then .invalid "TOKEN_EXPIRED"
        else .ok t

/-- `DeviceTokenManagerServer.validateToken`: format checks come first and
touch no store state; only a well-formed credential triggers `readTokens()`. -/
def validateToken (file : List TokenRec) (st : TMState) (now : Nat) :
    Cred → ValidationRes × TMState
  | .missing => (.invalid "INVALID_FORMAT", st)
  | .nonString => (.invalid "INVALID_FORMAT", st)
  | .str v =>
    if v.length = 0 then (.invalid "INVALID_FORMAT", st)
    else if !(v.length == 64 && isHexString v) then (.invalid "INVALID_FORMAT", st)
    else
      let r := readTokens file st now
      match r.1.find? (fun t => t.token == v) with
      | none => (.invalid "TOKEN_NOT_FOUND", r.2)
      | some t =>
        if !t.active then (.invalid "TOKEN_REVOKED", r.2)
        else if t.expiresAt < now then (.invalid "TOKEN_EXPIRED", r.2)
        else (.ok t, r.2)

/-! ## Rate limiting (`SocketIOServer.checkRateLimit`) -/

/-- One entry of `this.authAttempts` (`ip => { count, resetAt }`). -/
structure RateEntry where
  count : Nat
  resetAt : Nat
deriving DecidableEq

abbrev RateMap := List (String × RateEntry)

def MAX_AUTH_ATTEMPTS : Nat := 10

/-- 15 minutes in ms. -/
def AUTH_WINDOW : Nat := 15 * 60 * 1000

structure RateResult where
  allowed : Bool
  retryAfter : Option Nat
deriving DecidableEq

/-- `checkRateLimit(ip)`: reset the window entry when absent or expired,
count the attempt, reject above the cap with `Math.ceil` seconds left. -/
def checkRateLimit (m : RateMap) (ip : String) (now : Nat) :
    RateResult × RateMap :=
  let e0 : RateEntry :=
    match alookup m ip with
    | some e => if e.resetAt < now then ⟨0, now + AUTH_WINDOW⟩ else e
    | none => ⟨0, now + AUTH_WINDOW⟩
  let e1 : RateEntry := { e0 with count := e0.count + 1 }
  let m' := aset m ip e1
  if MAX_AUTH_ATTEMPTS < e1.count then
    (⟨false, some ((e1.resetAt - now + 999) / 1000)⟩, m')
  else
    (⟨true, none⟩, m')

/-! ## Authentication middleware (`SocketIOServer.authMiddleware`) -/

/-- The `socket.data` session context attached on successful auth (the
logging-only flags `isIOS`/`isAndroid`/`isSafari` are omitted; they are
derived from the user agent and never consulted again). -/
structure SessionData where
  authenticated : Bool
  authToken : String
  userId : String
  deviceId : String
  deviceName : String
  expiresAt : Nat
  ip : String
deriving DecidableEq

/-- Outcome of the middleware: `next(new Error(reason))` or `next()` with
`socket.data` set. `RATE_LIMIT_EXCEEDED` carries its retry-after seconds. -/
inductive AuthOutcome where
  | reject (reason : String) (retryAfter : Option Nat)
  | accept (sess : SessionData)
deriving DecidableEq

/-- `authMiddleware`: rate limit first, then the middleware's own format
checks (`INVALID_TOKEN`), then `deviceTokenManager.validateToken`. -/
def authMiddleware (rm : RateMap) (tm : TMState) (file : List TokenRec)
    (now : Nat) (ip : String) (cred : Cred) (declaredName : Option String) :
    AuthOutcome × RateMap × TMState :=
  let rc := checkRateLimit rm ip now
  if !rc.1.allowed then
    (.reject "RATE_LIMIT_EXCEEDED" rc.1.retryAfter, rc.2, tm)
  else
    match cred with
    | .missing => (.reject "INVALID_TOKEN" none, rc.2, tm)
    | .nonString => (.reject "INVALID_TOKEN" none, rc.2, tm)
    | .str tok =>
      if tok.length = 0 then (.reject "INVALID_TOKEN" none, rc.2, tm)
      else if !(tok.length == 64) then (.reject "INVALID_TOKEN" none, rc.2, tm)
      else if !isHexString tok then (.reject "INVALID_TOKEN" none, rc.2, tm)
      else
        let vr := validateToken file tm now (.str tok)
        match vr.1 with
        | .invalid r => (.reject r none, rc.2, vr.2)
        | .ok t =>
          (.accept { authenticated := true, authToken := tok,
                     userId := t.userId, deviceId := t.deviceId,
                     deviceName := declaredName.getD t.deviceName,
                     expiresAt := t.expiresAt, ip := ip },
           rc.2, vr.2)

/-- One connection attempt at the server: the middleware runs before the
connection opens; only `next()` (accept) reaches `handleConnection`, which
is where the session joins the authenticated room and gets its handlers. -/
def connectionAttempt (sessions : List SessionData) (rm : RateMap)
    (tm : TMState) (file : List TokenRec) (now : Nat) (ip : String)
    (cred : Cred) (declaredName : Option String) :
    AuthOutcome × List SessionData :=
  match authMiddleware rm tm file now ip cred declaredName with
  | (.reject r ra, _, _) => (.reject r ra, sessions)
  | (.accept s, _, _) => (.accept s, sessions ++ [s])

/-- A credential that fails the fixed-length-hex format requirement. -/
def badFormat : Cred → Prop
  | .missing => True
  | .nonString => True
  | .str s => ¬ (s.length = 64 ∧ isHexString s = true)

instance : DecidablePred badFormat := fun c =>
  match c with
  | .missing => isTrue trivial
  | .nonString => isTrue trivial
  | .str s => inferInstanceAs (Decidable (¬ (s.length = 64 ∧ isHexString s = true)))

/-- Every authentication attempt advances the per-ip window exactly through
`checkRateLimit`, regardless of the credential presented. -/
theorem authMiddleware_rateMap (rm : RateMap) (tm : TMState)
    (file : List TokenRec) (now : Nat) (ip : String) (cred : Cred)
    (dn : Option String) :
    (authMiddleware rm tm file now ip cred dn).2.1 = (checkRateLimit rm ip now).2 := by
  cases cred <;> simp only [authMiddleware] <;> (repeat' split) <;> rfl

/-- The attempts a source address makes are folded through `checkRateLimit`
(see `authMiddleware_rateMap`: this is exactly how the server's map evolves). -/
def recordAttempts (ip : String) (ts : List Nat) (rm : RateMap) : RateMap :=
  ts.foldl (fun m t => (checkRateLimit m ip t).2) rm

theorem checkRateLimit_first (rm : RateMap) (ip : String) (t1 : Nat)
    (h : alookup rm ip = none) :
    alookup (checkRateLimit rm ip t1).2 ip = some ⟨1, t1 + AUTH_WINDOW⟩ := by
  simp only [checkRateLimit, h, Nat.zero_add]
  split <;> exact alookup_aset_self rm ip ⟨1, t1 + AUTH_WINDOW⟩

theorem checkRateLimit_in_window (rm : RateMap) (ip : String) (t : Nat)
    (k R : Nat) (h : alookup rm ip = some ⟨k, R⟩) (ht : t ≤ R) :
    alookup (checkRateLimit rm ip t).2 ip = some ⟨k + 1, R⟩ := by
  have hreset : ¬ R < t := Nat.not_lt.mpr ht
  simp only [checkRateLimit, h, if_neg hreset]
  split <;> exact alookup_aset_self rm ip ⟨k + 1, R⟩

theorem recordAttempts_lookup (ip : String) (R : Nat) :
    ∀ (ts : List Nat) (rm : RateMap) (k : Nat),
      alookup rm ip = some ⟨k, R⟩ → (∀ u ∈ ts, u ≤ R) →
      alookup (recordAttempts ip ts rm) ip = some ⟨k + ts.length, R⟩ := by
  intro ts
  induction ts with
  | nil => intro rm k h _; simpa [recordAttempts] using h
  | cons u rest ih =>
    intro rm k h hts
    have hu : u ≤ R := hts u (by simp)
    have hstep := checkRateLimit_in_window rm ip u k R h hu
    have := ih (checkRateLimit rm ip u).2 (k + 1) hstep
      (fun v hv => hts v (by simp [hv]))
    simpa [recordAttempts, Nat.add_assoc, Nat.add_comm 1 rest.length] using this

/-- C2: for every authentication handshake, the rejection reason follows the
priority order — format failure (missing / non-string / wrong length /
non-hex credential) is decided first and independently of the token store
(the middleware's wire string for it is `INVALID_TOKEN`, the spec's
`InvalidFormat`), then `TOKEN_NOT_FOUND` when no store entry matches, then
`TOKEN_REVOKED` when the matching entry is inactive, then `TOKEN_EXPIRED`
when the matching active entry is past expiry; and a rejected handshake
never creates a session (the connection never reaches `handleConnection`). -/
theorem auth_rejection_priority_and_no_session
    (rm : RateMap) (tm : TMState) (file : List TokenRec) (now : Nat)
    (ip : String) (cred : Cred) (dn : Option String)
    (hrate : (checkRateLimit rm ip now).1.allowed = true) :
    (badFormat cred →
      (authMiddleware rm tm file now ip cred dn).1 = .reject "INVALID_TOKEN" none ∧
      ∀ (file' : List TokenRec) (tm' : TMState),
        (authMiddleware rm tm' file' now ip cred dn).1
          = (authMiddleware rm tm file now ip cred dn).1) ∧
    (∀ s : String, cred = .str s → s.length = 64 → isHexString s = true →
      ((readTokens file tm now).1.find? (fun t => t.token == s) = none →
        (authMiddleware rm tm file now ip cred dn).1 = .reject "TOKEN_NOT_FOUND" none) ∧
      (∀ t : TokenRec,
        (readTokens file tm now).1.find? (fun t => t.token == s) = some t →
        t.active = false →
        (authMiddleware rm tm file now ip cred dn).1 = .reject "TOKEN_REVOKED" none) ∧
      (∀ t : TokenRec,
        (readTokens file tm now).1.find? (fun t => t.token == s) = some t →
        t.active = true → t.expiresAt < now →
        (authMiddleware rm tm file now ip cred dn).1 = .reject "TOKEN_EXPIRED" none)) ∧
    (∀ (sessions : List SessionData) (r : String) (ra : Option Nat),
      (connectionAttempt sessions rm tm file now ip cred dn).1 = .reject r ra →
      (connectionAttempt sessions rm tm file now ip cred dn).2 = sessions) := by
  refine ⟨?_, ?_, ?_⟩
  · intro hbad
    cases cred with
    | missing => exact ⟨by simp [authMiddleware, hrate], fun _ _ => by simp [authMiddleware, hrate]⟩
    | nonString => exact ⟨by simp [authMiddleware, hrate], fun _ _ => by simp [authMiddleware, hrate]⟩
    | str s =>
      have hmix : s.length ≠ 64 ∨ isHexString s = false := by
        by_cases h64 : s.length = 64
        · by_cases hh : isHexString s = true
          · exact absurd ⟨h64, hh⟩ hbad
          · exact Or.inr (Bool.eq_false_iff.mpr hh)
        · exact Or.inl h64
      constructor
      · rcases hmix with h | h
        · by_cases h0 : s.length = 0
          · simp [authMiddleware, hrate, h0]
          · simp [authMiddleware, hrate, h0, h]
        · by_cases h0 : s.length = 0
          · simp [authMiddleware, hrate, h0]
          · by_cases h64 : s.length = 64
            · simp [authMiddleware, hrate, h0, h64, h]
            · simp [authMiddleware, hrate, h0, h64]
      · intro file' tm'
        rcases hmix with h | h
        · by_cases h0 : s.length = 0
          · simp [authMiddleware, hrate, h0]
          · simp [authMiddleware, hrate, h0, h]
        · by_cases h0 : s.length = 0
          · simp [authMiddleware, hrate, h0]
          · by_cases h64 : s.length = 64
            · simp [authMiddleware, hrate, h0, h64, h]
            · simp [authMiddleware, hrate, h0, h64]
  · rintro s rfl h64 hhex
    have h0 : s.length ≠ 0 := by omega
    have hv0 : ¬ s.length = 0 := h0
    refine ⟨?_, ?_, ?_⟩
    · intro hfind
      simp [authMiddleware, hrate, hv0, h64, hhex, validateToken, hfind]
    · intro t hfind hact
      simp [authMiddleware, hrate, hv0, h64, hhex, validateToken, hfind, hact]
    · intro t hfind hact hexp
      simp [authMiddleware, hrate, hv0, h64, hhex, validateToken, hfind, hact, hexp]
  · intro sessions r ra
    unfold connectionAttempt
    cases h : authMiddleware rm tm file now ip cred dn with
    | mk o rest =>
      cases o with
      | reject r' ra' => intro _; rfl
      | accept s => intro hcontra; simp at hcontra

/-- Witness for `auth_rejection_priority_and_no_session`: a concrete
malformed handshake from a fresh address is rejected `INVALID_TOKEN`. -/
theorem auth_rejection_priority_witness :
    (authMiddleware [] ⟨none, 0⟩ [] 0 "10.0.0.1" (.str "zz") none).1
      = .reject "INVALID_TOKEN" none := by
  have h := auth_rejection_priority_and_no_session [] ⟨none, 0⟩ [] 0 "10.0.0.1"
    (.str "zz") none (by decide)
  exact (h.1 (by decide)).1

/-- C3: once a source address has made more than `MAX_AUTH_ATTEMPTS`
attempts within one window, every further attempt strictly inside that
window is rejected `RATE_LIMIT_EXCEEDED` with a strictly positive
retry-after (in seconds), before the credential or the token store is
examined and independently of both. -/
theorem rate_limit_window_rejects
    (rm0 : RateMap) (ip : String) (t1 : Nat) (ts : List Nat) (t : Nat)
    (h0 : alookup rm0 ip = none)
    (hts : ∀ u ∈ ts, u ≤ t1 + AUTH_WINDOW)
    (hcount : MAX_AUTH_ATTEMPTS < 1 + ts.length)
    (ht : t < t1 + AUTH_WINDOW) :
    ∃ r : Nat, 0 < r ∧
      (checkRateLimit (recordAttempts ip ts (checkRateLimit rm0 ip t1).2) ip t).1
        = ⟨false, some r⟩ ∧
      ∀ (tm : TMState) (file : List TokenRec) (cred : Cred) (dn : Option String),
        (authMiddleware (recordAttempts ip ts (checkRateLimit rm0 ip t1).2)
            tm file t ip cred dn).1
          = .reject "RATE_LIMIT_EXCEEDED" (some r) ∧
        (authMiddleware (recordAttempts ip ts (checkRateLimit rm0 ip t1).2)
            tm file t ip cred dn).2.2 = tm := by
  have h1 := checkRateLimit_first rm0 ip t1 h0
  have hN := recordAttempts_lookup ip (t1 + AUTH_WINDOW) ts
    (checkRateLimit rm0 ip t1).2 1 h1 hts
  have hreset : ¬ t1 + AUTH_WINDOW < t := by omega
  have hover : MAX_AUTH_ATTEMPTS < 1 + ts.length + 1 := by omega
  generalize hMeq : recordAttempts ip ts (checkRateLimit rm0 ip t1).2 = M at hN ⊢
  have hrc : (checkRateLimit M ip t).1
      = ⟨false, some ((t1 + AUTH_WINDOW - t + 999) / 1000)⟩ := by
    simp [checkRateLimit, hN, hreset, hover]
  refine ⟨(t1 + AUTH_WINDOW - t + 999) / 1000, ?_, hrc, ?_⟩
  · exact Nat.div_pos (by omega) (by norm_num)
  · intro tm file cred dn
    constructor <;> simp [authMiddleware, hrc]

/-- Witness for `rate_limit_window_rejects`: 11 attempts from one address
at time 0 leave the 12th attempt (at time 1 ms) rejected with a positive
retry-after. -/
theorem rate_limit_window_rejects_witness :
    ∃ r : Nat, 0 < r ∧
      (checkRateLimit
        (recordAttempts "10.0.0.9" [0, 0, 0, 0, 0, 0, 0, 0, 0, 0]
          (checkRateLimit [] "10.0.0.9" 0).2) "10.0.0.9" 1).1
        = ⟨false, some r⟩ := by
  obtain ⟨r, hr, hc, _⟩ := rate_limit_window_rejects [] "10.0.0.9" 0
    [0, 0, 0, 0, 0, 0, 0, 0, 0, 0] 1 (by decide) (by decide) (by decide) (by decide)
  exact ⟨r, hr, hc⟩

/-! ## Photo catalog (`photosDatabase` records and the `PhotoDatabase` wrapper) -/

/-- One record of `photosDatabase`, exactly the fields pushed by
`scanDirectoryRecursive`. -/
structure Photo where
  id : String
  filename : String
  path : String
  size : Nat
  modified : Nat
  width : Nat
  height : Nat
  rootPath : String
  folderPath : String
deriving DecidableEq

/-- `PhotoDatabase.getPhoto` (`database.find(p => p.id === id)`). -/
def getPhoto (db : List Photo) (id : String) : Option Photo :=
  db.find? (fun p => p.id == id)

/-- `PhotoDatabase.getPhotoById` is an alias of `getPhoto`. -/
def getPhotoById (db : List Photo) (id : String) : Option Photo :=
  getPhoto db id

/-! ## Rendition cache (`server.js` `compressImage` and its two caches)

The embedding also records the ordered trace of cache effects so that the
order of the disk write and the memory-map insertion is observable. -/

inductive CacheOp where
  | memCheck (key : String)
  | diskCheck (key : String)
  | compute (key : String)
  | memWrite (key : String)
  | diskWrite (key : String)
deriving DecidableEq

/-- `getCacheKey(id, quality, maxDimension)`. -/
def getCacheKey (id : String) (quality maxDimension : Int) : String :=
  id ++ "_" ++ toString quality ++ "_" ++ toString maxDimension

/-- The two cache tiers: `compressionCache` (in-process `Map`) and the
`.cache` directory contents (`{key}.jpg` files). -/
structure CacheState where
  memCache : List (String × Bytes)
  diskCache : List (String × Bytes)
deriving DecidableEq

structure CompressResult where
  buffer : Bytes
  state : CacheState
  trace : List CacheOp
deriving DecidableEq

/-- `compressImage(filePath, quality, maxDimension, id)`. `sharpFn` stands
for the sharp resize/flatten/jpeg pipeline, a pure function of its inputs.
Note the source order on a full miss: `compressionCache.set` (memory)
executes before `fsPromises.writeFile` (disk). -/
def compressImage (sharpFn : String → Int → Int → Bytes) (st : CacheState)
    (filePath : String) (quality maxDimension : Int) (id : String) :
    CompressResult :=
  let key := getCacheKey id quality maxDimension
  match alookup st.memCache key with
  | some b => ⟨b, st, [.memCheck key]⟩
  | none =>
    match alookup st.diskCache key with
    | some b =>
      ⟨b, ⟨aset st.memCache key b, st.diskCache⟩, [.memCheck key, .diskCheck key]⟩
    | none =>
      let b := sharpFn filePath quality maxDimension
      ⟨b, ⟨aset st.memCache key b, aset st.diskCache key b⟩,
        [.memCheck key, .diskCheck key, .compute key, .memWrite key, .diskWrite key]⟩

/-- `x` occurs strictly before `y` in the list. -/
def occursBefore {α : Type} [BEq α] (x y : α) : List α → Bool
  | [] => false
  | a :: rest => if a == x then rest.contains y else occursBefore x y rest

/-! ## Photo worker delivery (`PhotoWorker.processCompressedPhoto`) -/

/-- Events emitted on a streaming socket. -/
inductive WireEvent where
  | photoData (photoId : String) (chunk : Bytes) (totalSize : Nat)
      (checksum : String) (mimeType : String)
  | photoComplete (photoId : String) (totalSize : Nat) (checksum : String)
  | photoError (photoId : String) (code : String) (message : String)
  | batchStarted (totalPhotos : Nat)
deriving DecidableEq

/-- `processCompressedPhoto(job)`: resolve the photo, check the file on
disk, compress through the cache, checksum the buffer, emit
`photo:data` then `photo:complete`. `md5` is the opaque hash. A thrown
error is returned as `Except.error` with the thrown message. -/
def processCompressedPhoto (md5 : Bytes → String)
    (sharpFn : String → Int → Int → Bytes) (fsExists : String → Bool)
    (db : List Photo) (st : CacheState)
    (photoId : String) (quality maxDimension : Int) :
    Except String (List WireEvent × CacheState) :=
  match getPhoto db photoId with
  | none => .error ("Photo not found in database: " ++ photoId)
  | some photo =>
    if !fsExists photo.path then
      .error ("Photo file not found on disk: " ++ photo.path)
    else
      let r := compressImage sharpFn st photo.path quality maxDimension photoId
      let checksum := md5 r.buffer
      .ok ([.photoData photoId r.buffer r.buffer.length checksum "image/jpeg",
            .photoComplete photoId r.buffer.length checksum], r.state)

/-- C4 part 1: a second `compressImage` call with the same photo and
parameters returns the byte-identical buffer (the first call leaves the
key in the memory cache, which the second call serves). -/
theorem compressImage_deterministic
    (sharpFn : String → Int → Int → Bytes) (st : CacheState)
    (filePath : String) (quality maxDimension : Int) (id : String)
    (hq : 1 ≤ quality ∧ quality ≤ 100)
    (hd : 1 ≤ maxDimension ∧ maxDimension ≤ 10000) :
    (compressImage sharpFn
        (compressImage sharpFn st filePath quality maxDimension id).state
        filePath quality maxDimension id).buffer
      = (compressImage sharpFn st filePath quality maxDimension id).buffer := by
  unfold compressImage
  cases hm : alookup st.memCache (getCacheKey id quality maxDimension) with
  | some b => simp [hm]
  | none =>
    cases hdk : alookup st.diskCache (getCacheKey id quality maxDimension) with
    | some b => simp [hm, hdk, alookup_aset_self]
    | none => simp [hm, hdk, alookup_aset_self]

/-- C4: for a catalogued photo whose file exists and any valid
`(quality, maxDimension)` pair, a compressed request succeeds, its
`photo:data` payload carries a checksum freshly computed (`md5`) over
exactly the delivered bytes (echoed by `photo:complete`), and repeating the
request with the same parameters delivers the byte-identical buffer. -/
theorem compressed_repeat_identical_and_checksum
    (md5 : Bytes → String) (sharpFn : String → Int → Int → Bytes)
    (fsExists : String → Bool) (db : List Photo) (st : CacheState)
    (photoId : String) (quality maxDimension : Int)
    (hq : 1 ≤ quality ∧ quality ≤ 100)
    (hd : 1 ≤ maxDimension ∧ maxDimension ≤ 10000)
    (p : Photo) (hp : getPhoto db photoId = some p)
    (hf : fsExists p.path = true) :
    ∃ (buf : Bytes) (st1 st2 : CacheState),
      processCompressedPhoto md5 sharpFn fsExists db st photoId quality maxDimension
        = .ok ([.photoData photoId buf buf.length (md5 buf) "image/jpeg",
                .photoComplete photoId buf.length (md5 buf)], st1) ∧
      processCompressedPhoto md5 sharpFn fsExists db st1 photoId quality maxDimension
        = .ok ([.photoData photoId buf buf.length (md5 buf) "image/jpeg",
                .photoComplete photoId buf.length (md5 buf)], st2) := by
  refine ⟨(compressImage sharpFn st p.path quality maxDimension photoId).buffer,
    (compressImage sharpFn st p.path quality maxDimension photoId).state,
    (compressImage sharpFn
      (compressImage sharpFn st p.path quality maxDimension photoId).state
      p.path quality maxDimension photoId).state, ?_, ?_⟩
  · simp [processCompressedPhoto, hp, hf]
  · have hbuf := compressImage_deterministic sharpFn st p.path quality
      maxDimension photoId hq hd
    simp [processCompressedPhoto, hp, hf, hbuf]

/-- Witness for `compressed_repeat_identical_and_checksum` at a concrete
one-photo catalog. -/
theorem compressed_repeat_identical_witness :
    ∃ (buf : Bytes) (st1 st2 : CacheState),
      processCompressedPhoto (fun b => toString b.length) (fun _ _ _ => [3, 1, 4])
          (fun _ => true)
          [⟨"a1", "x.jpg", "/r/x.jpg", 9, 5, 40, 30, "/r", ""⟩]
          ⟨[], []⟩ "a1" 50 1920
        = .ok ([.photoData "a1" buf buf.length (toString buf.length) "image/jpeg",
                .photoComplete "a1" buf.length (toString buf.length)], st1) ∧
      processCompressedPhoto (fun b => toString b.length) (fun _ _ _ => [3, 1, 4])
          (fun _ => true)
          [⟨"a1", "x.jpg", "/r/x.jpg", 9, 5, 40, 30, "/r", ""⟩]
          st1 "a1" 50 1920
        = .ok ([.photoData "a1" buf buf.length (toString buf.length) "image/jpeg",
                .photoComplete "a1" buf.length (toString buf.length)], st2) :=
  compressed_repeat_identical_and_checksum (fun b => toString b.length)
    (fun _ _ _ => [3, 1, 4]) (fun _ => true)
    [⟨"a1", "x.jpg", "/r/x.jpg", 9, 5, 40, 30, "/r", ""⟩] ⟨[], []⟩ "a1" 50 1920
    (by norm_num) (by norm_num) ⟨"a1", "x.jpg", "/r/x.jpg", 9, 5, 40, 30, "/r", ""⟩
    (by rfl) (by rfl)

/-- C7 counterexample: on a fresh cache, computing a new rendition inserts
the memory entry *before* writing the disk file — the disk write never
precedes the memory insertion, contradicting the claimed write order. -/
theorem cache_write_order_counterexample :
    occursBefore (CacheOp.diskWrite "p_50_1920") (CacheOp.memWrite "p_50_1920")
        (compressImage (fun _ _ _ => [7]) ⟨[], []⟩ "/a.jpg" 50 1920 "p").trace
      = false ∧
    occursBefore (CacheOp.memWrite "p_50_1920") (CacheOp.diskWrite "p_50_1920")
        (compressImage (fun _ _ _ => [7]) ⟨[], []⟩ "/a.jpg" 50 1920 "p").trace
      = true := by
  constructor <;> rfl

/-- C7 amended: the lookup proceeds key → memory map → disk file → compute,
a disk hit is promoted into the memory map, and a memory hit leaves the
state untouched (entries are immutable once written); but on a fresh
computation the memory entry is inserted *before* the disk file is written
(the reverse of the claimed disk-then-memory order), after which both tiers
hold the computed bytes. -/
theorem cache_lookup_and_write_order
    (sharpFn : String → Int → Int → Bytes) (st : CacheState)
    (filePath : String) (quality maxDimension : Int) (id : String) :
    (∀ b, alookup st.memCache (getCacheKey id quality maxDimension) = some b →
      compressImage sharpFn st filePath quality maxDimension id
        = ⟨b, st, [.memCheck (getCacheKey id quality maxDimension)]⟩) ∧
    (∀ b, alookup st.memCache (getCacheKey id quality maxDimension) = none →
      alookup st.diskCache (getCacheKey id quality maxDimension) = some b →
      compressImage sharpFn st filePath quality maxDimension id
        = ⟨b, ⟨aset st.memCache (getCacheKey id quality maxDimension) b, st.diskCache⟩,
            [.memCheck (getCacheKey id quality maxDimension),
             .diskCheck (getCacheKey id quality maxDimension)]⟩) ∧
    (alookup st.memCache (getCacheKey id quality maxDimension) = none →
      alookup st.diskCache (getCacheKey id quality maxDimension) = none →
      (compressImage sharpFn st filePath quality maxDimension id).buffer
          = sharpFn filePath quality maxDimension ∧
      (compressImage sharpFn st filePath quality maxDimension id).trace
          = [.memCheck (getCacheKey id quality maxDimension),
             .diskCheck (getCacheKey id quality maxDimension),
             .compute (getCacheKey id quality maxDimension),
             .memWrite (getCacheKey id quality maxDimension),
             .diskWrite (getCacheKey id quality maxDimension)] ∧
      occursBefore (CacheOp.memWrite (getCacheKey id quality maxDimension))
          (CacheOp.diskWrite (getCacheKey id quality maxDimension))
          (compressImage sharpFn st filePath quality maxDimension id).trace = true ∧
      alookup (compressImage sharpFn st filePath quality maxDimension id).state.memCache
          (getCacheKey id quality maxDimension)
        = some (sharpFn filePath quality maxDimension) ∧
      alookup (compressImage sharpFn st filePath quality maxDimension id).state.diskCache
          (getCacheKey id quality maxDimension)
        = some (sharpFn filePath quality maxDimension)) := by
  refine ⟨?_, ?_, ?_⟩
  · intro b hm
    simp [compressImage, hm]
  · intro b hm hdk
    simp [compressImage, hm, hdk]
  · intro hm hdk
    refine ⟨?_, ?_, ?_, ?_, ?_⟩ <;>
      simp [compressImage, hm, hdk, occursBefore, alookup_aset_self]

/-- Witness for `cache_lookup_and_write_order`: concrete fresh-cache
computation showing the memory-then-disk effect order. -/
theorem cache_lookup_and_write_order_witness :
    (compressImage (fun _ _ _ => [7]) ⟨[], []⟩ "/a.jpg" 50 1920 "p").trace
      = [.memCheck "p_50_1920", .diskCheck "p_50_1920", .compute "p_50_1920",
         .memWrite "p_50_1920", .diskWrite "p_50_1920"] :=
  ((cache_lookup_and_write_order (fun _ _ _ => [7]) ⟨[], []⟩ "/a.jpg" 50 1920
    "p").2.2 (by rfl) (by rfl)).2.1

/-! ## Batch compressed requests (`SocketIOServer.handleBatchRequest`)

The handler awaits each queued job in turn, so per-batch processing is the
sequential composition of `processCompressedPhoto` calls; a rejected job
promise is caught and emitted as a `photo:error` (`PROCESSING_FAILED`).
The `timestamp` field of `photo:error` is omitted from the event model. -/

def MAX_BATCH_SIZE : Nat := 500

/-- The acknowledgment value: `{error: {code, message}}` or `{success: true}`. -/
inductive BatchAck where
  | err (code : String) (message : String)
  | ok
deriving DecidableEq

/-- The request payload `{photoIds, quality = 50, maxDimension = 1920}`;
`photoIds = none` models a non-array value, `none` options take defaults. -/
structure BatchData where
  photoIds : Option (List String)
  quality : Option Int
  maxDimension : Option Int

/-- The per-photo loop body of `handleBatchRequest`. -/
def processBatchIds (md5 : Bytes → String) (sharpFn : String → Int → Int → Bytes)
    (fsExists : String → Bool) (db : List Photo) (quality maxDimension : Int) :
    List String → CacheState → List WireEvent × CacheState
  | [], st => ([], st)
  | pid :: rest, st =>
    match processCompressedPhoto md5 sharpFn fsExists db st pid quality maxDimension with
    | .ok (evs, st') =>
      let r := processBatchIds md5 sharpFn fsExists db quality maxDimension rest st'
      (evs ++ r.1, r.2)
    | .error msg =>
      let r := processBatchIds md5 sharpFn fsExists db quality maxDimension rest st
      (.photoError pid "PROCESSING_FAILED" msg :: r.1, r.2)

/-- `handleBatchRequest(socket, data, ack)`. -/
def handleBatchRequest (md5 : Bytes → String) (sharpFn : String → Int → Int → Bytes)
    (fsExists : String → Bool) (db : List Photo) (st : CacheState)
    (data : BatchData) : List WireEvent × BatchAck × CacheState :=
  let quality := data.quality.getD 50
  let maxDimension := data.maxDimension.getD 1920
  match data.photoIds with
  | none => ([], .err "INVALID_REQUEST" "photoIds must be non-empty array", st)
  | some ids =>
    if ids.length = 0 then
      ([], .err "INVALID_REQUEST" "photoIds must be non-empty array", st)
    else if MAX_BATCH_SIZE < ids.length then
      ([], .err "BATCH_TOO_LARGE" "Maximum batch size is 500", st)
    else if quality < 1 ∨ 100 < quality then
      ([], .err "INVALID_QUALITY" "Quality must be 1-100", st)
    else if maxDimension < 1 ∨ 10000 < maxDimension then
      ([], .err "INVALID_DIMENSION" "maxDimension must be 1-10000", st)
    else
      let r := processBatchIds md5 sharpFn fsExists db quality maxDimension ids st
      (.batchStarted ids.length :: r.1, .ok, r.2)

/-- A photo id the worker can deliver: in the catalog and on disk. -/
def photoAvailable (db : List Photo) (fsExists : String → Bool) (pid : String) : Bool :=
  match getPhoto db pid with
  | some p => fsExists p.path
  | none => false

def isPhotoErrorEv : WireEvent → Bool
  | .photoError _ _ _ => true
  | _ => false

def eventPid : WireEvent → String
  | .photoData pid _ _ _ _ => pid
  | .photoComplete pid _ _ => pid
  | .photoError pid _ _ => pid
  | .batchStarted _ => ""

theorem pcp_available (md5 : Bytes → String) (sharpFn : String → Int → Int → Bytes)
    (fsExists : String → Bool) (db : List Photo) (st : CacheState)
    (pid : String) (q d : Int) (hav : photoAvailable db fsExists pid = true) :
    ∃ (b : Bytes) (s : CacheState),
      processCompressedPhoto md5 sharpFn fsExists db st pid q d
        = .ok ([.photoData pid b b.length (md5 b) "image/jpeg",
                .photoComplete pid b.length (md5 b)], s) := by
  unfold photoAvailable at hav
  cases hp : getPhoto db pid with
  | none => rw [hp] at hav; simp at hav
  | some p =>
    rw [hp] at hav
    simp only [] at hav
    refine ⟨(compressImage sharpFn st p.path q d pid).buffer,
      (compressImage sharpFn st p.path q d pid).state, ?_⟩
    simp [processCompressedPhoto, hp, hav]

theorem pcp_unavailable (md5 : Bytes → String) (sharpFn : String → Int → Int → Bytes)
    (fsExists : String → Bool) (db : List Photo) (st : CacheState)
    (pid : String) (q d : Int) (hav : photoAvailable db fsExists pid = false) :
    ∃ msg, processCompressedPhoto md5 sharpFn fsExists db st pid q d = .error msg := by
  unfold photoAvailable at hav
  cases hp : getPhoto db pid with
  | none =>
    exact ⟨"Photo not found in database: " ++ pid, by simp [processCompressedPhoto, hp]⟩
  | some p =>
    rw [hp] at hav
    simp only [] at hav
    exact ⟨"Photo file not found on disk: " ++ p.path,
      by simp [processCompressedPhoto, hp, hav]⟩

theorem processBatchIds_error_count (md5 : Bytes → String)
    (sharpFn : String → Int → Int → Bytes) (fsExists : String → Bool)
    (db : List Photo) (q d : Int) :
    ∀ (ids : List String) (st : CacheState),
      ((processBatchIds md5 sharpFn fsExists db q d ids st).1.filter
          isPhotoErrorEv).length
        = ids.countP (fun i => !photoAvailable db fsExists i) := by
  intro ids
  induction ids with
  | nil => intro st; simp [processBatchIds]
  | cons pid rest ih =>
    intro st
    cases hav : photoAvailable db fsExists pid with
    | true =>
      obtain ⟨b, s, hok⟩ := pcp_available md5 sharpFn fsExists db st pid q d hav
      simp [processBatchIds, hok, isPhotoErrorEv, List.countP_cons, hav, ih]
    | false =>
      obtain ⟨msg, herr⟩ := pcp_unavailable md5 sharpFn fsExists db st pid q d hav
      simp [processBatchIds, herr, isPhotoErrorEv, List.countP_cons, hav, ih]

theorem processBatchIds_error_pids (md5 : Bytes → String)
    (sharpFn : String → Int → Int → Bytes) (fsExists : String → Bool)
    (db : List Photo) (q d : Int) :
    ∀ (ids : List String) (st : CacheState) (e : WireEvent),
      e ∈ (processBatchIds md5 sharpFn fsExists db q d ids st).1 →
      isPhotoErrorEv e = true →
      eventPid e ∈ ids ∧ photoAvailable db fsExists (eventPid e) = false := by
  intro ids
  induction ids with
  | nil => intro st e he _; simp [processBatchIds] at he
  | cons pid rest ih =>
    intro st e he herr
    cases hav : photoAvailable db fsExists pid with
    | true =>
      obtain ⟨b, s, hok⟩ := pcp_available md5 sharpFn fsExists db st pid q d hav
      rw [processBatchIds, hok] at he
      simp only [List.mem_append, List.mem_cons] at he
      rcases he with (rfl | rfl | h) | h
      · simp [isPhotoErrorEv] at herr
      · simp [isPhotoErrorEv] at herr
      · simp at h
      · obtain ⟨hmem, hv⟩ := ih _ e h herr
        exact ⟨by simp [hmem], hv⟩
    | false =>
      obtain ⟨msg, herr2⟩ := pcp_unavailable md5 sharpFn fsExists db st pid q d hav
      rw [processBatchIds, herr2] at he
      simp only [List.mem_cons] at he
      rcases he with rfl | h
      · exact ⟨by simp [eventPid], by simpa [eventPid] using hav⟩
      · obtain ⟨hmem, hv⟩ := ih _ e h herr
        exact ⟨by simp [hmem], hv⟩

theorem processBatchIds_valid_delivery (md5 : Bytes → String)
    (sharpFn : String → Int → Int → Bytes) (fsExists : String → Bool)
    (db : List Photo) (q d : Int) :
    ∀ (ids : List String) (st : CacheState) (pid : String),
      pid ∈ ids → photoAvailable db fsExists pid = true →
      ∃ (b : Bytes) (c : String) (pre post : List WireEvent),
        (processBatchIds md5 sharpFn fsExists db q d ids st).1
          = pre ++ [.photoData pid b b.length c "image/jpeg",
                    .photoComplete pid b.length c] ++ post := by
  intro ids
  induction ids with
  | nil => intro st pid hmem; simp at hmem
  | cons hd2 rest ih =>
    intro st pid hmem hav
    rcases List.mem_cons.mp hmem with rfl | hmem'
    · obtain ⟨b, s, hok⟩ := pcp_available md5 sharpFn fsExists db st pid q d hav
      refine ⟨b, md5 b, [],
        (processBatchIds md5 sharpFn fsExists db q d rest s).1, ?_⟩
      simp [processBatchIds, hok]
    · cases hres : processCompressedPhoto md5 sharpFn fsExists db st hd2 q d with
      | ok pr =>
        obtain ⟨b, c, pre, post, hblk⟩ := ih pr.2 pid hmem' hav
        refine ⟨b, c, pr.1 ++ pre, post, ?_⟩
        simp [processBatchIds, hres, hblk]
      | error msg =>
        obtain ⟨b, c, pre, post, hblk⟩ := ih st pid hmem' hav
        refine ⟨b, c, .photoError hd2 "PROCESSING_FAILED" msg :: pre, post, ?_⟩
        simp [processBatchIds, hres, hblk]

/-- If `p → q` pointwise on a list and the two counts agree, then `q → p`
on every element of the list. -/
theorem countP_converse {α : Type} :
    ∀ (l : List α) (p q : α → Bool),
      (∀ x ∈ l, p x = true → q x = true) →
      l.countP q ≤ l.countP p →
      ∀ x ∈ l, q x = true → p x = true := by
  intro l
  induction l with
  | nil => intro p q _ _ x hx; simp at hx
  | cons a rest ih =>
    intro p q himp hle x hx hq
    have hmono : rest.countP p ≤ rest.countP q :=
      List.countP_mono_left (fun y hy => by
        intro hpy
        exact himp y (by simp [hy]) hpy)
    have hcp : (a :: rest).countP p = rest.countP p + (if p a = true then 1 else 0) := by
      rw [List.countP_cons]
    have hcq : (a :: rest).countP q = rest.countP q + (if q a = true then 1 else 0) := by
      rw [List.countP_cons]
    rcases List.mem_cons.mp hx with rfl | hx'
    · by_contra hp
      have hpa : p x = false := Bool.eq_false_iff.mpr hp
      rw [hcp, hcq, if_pos hq, if_neg (by simp [hpa])] at hle
      omega
    · refine ih p q (fun y hy => himp y (by simp [hy])) ?_ x hx' hq
      rw [hcp, hcq] at hle
      have h3 : (if p a = true then (1 : Nat) else 0) ≤ (if q a = true then 1 else 0) := by
        by_cases hpa : p a = true
        · rw [if_pos hpa, if_pos (himp a (by simp) hpa)]
        · rw [if_neg hpa]
          omega
      omega

/-- C5: a 3-id compressed batch with one id absent from the catalog and two
catalogued ids with existing files completes both valid transfers (payload
`photo:data` immediately followed by its `photo:complete`), emits exactly
one `photo:error` and it carries the missing photoId, and the batch-level
acknowledgment still reports success. -/
theorem batch_missing_id_isolated (md5 : Bytes → String)
    (sharpFn : String → Int → Int → Bytes) (fsExists : String → Bool)
    (db : List Photo) (st : CacheState) (q d : Int) (ids : List String)
    (hq : 1 ≤ q ∧ q ≤ 100) (hd : 1 ≤ d ∧ d ≤ 10000)
    (hlen : ids.length = 3)
    (hmiss : ids.countP (fun i => (getPhoto db i).isNone) = 1)
    (havail : ids.countP (fun i => photoAvailable db fsExists i) = 2) :
    (handleBatchRequest md5 sharpFn fsExists db st ⟨some ids, some q, some d⟩).2.1
        = .ok ∧
    ((handleBatchRequest md5 sharpFn fsExists db st ⟨some ids, some q, some d⟩).1.filter
        isPhotoErrorEv).length = 1 ∧
    (∀ e ∈ (handleBatchRequest md5 sharpFn fsExists db st ⟨some ids, some q, some d⟩).1,
      isPhotoErrorEv e = true →
      eventPid e ∈ ids ∧ (getPhoto db (eventPid e)).isNone = true) ∧
    (∀ pid ∈ ids, photoAvailable db fsExists pid = true →
      ∃ (b : Bytes) (c : String) (pre post : List WireEvent),
        (handleBatchRequest md5 sharpFn fsExists db st ⟨some ids, some q, some d⟩).1
          = pre ++ [.photoData pid b b.length c "image/jpeg",
                    .photoComplete pid b.length c] ++ post) := by
  have hlen0 : ¬ ids.length = 0 := by omega
  have hcap : ¬ MAX_BATCH_SIZE < ids.length := by
    simp only [MAX_BATCH_SIZE]; omega
  have hqv : ¬ (q < 1 ∨ 100 < q) := by omega
  have hdv : ¬ (d < 1 ∨ 10000 < d) := by omega
  have hnot : ids.countP (fun i => !photoAvailable db fsExists i) = 1 := by
    have := List.length_eq_countP_add_countP (fun i => photoAvailable db fsExists i) ids
    have hcnot : ids.countP (fun i => ¬ photoAvailable db fsExists i = true)
        = ids.countP (fun i => !photoAvailable db fsExists i) := by
      apply List.countP_congr
      intro x _
      cases photoAvailable db fsExists x <;> simp
    omega
  have hconv : ∀ x ∈ ids, (!photoAvailable db fsExists x) = true →
      (getPhoto db x).isNone = true := by
    refine countP_converse ids (fun i => (getPhoto db i).isNone)
      (fun i => !photoAvailable db fsExists i) ?_ (by omega)
    intro x _ hnone
    have hnone' : (getPhoto db x).isNone = true := hnone
    cases hg : getPhoto db x with
    | none => simp [photoAvailable, hg]
    | some p => rw [hg] at hnone'; simp at hnone'
  have hun : handleBatchRequest md5 sharpFn fsExists db st ⟨some ids, some q, some d⟩
      = (.batchStarted ids.length ::
          (processBatchIds md5 sharpFn fsExists db q d ids st).1, .ok,
         (processBatchIds md5 sharpFn fsExists db q d ids st).2) := by
    simp [handleBatchRequest, hlen0, hcap, hqv, hdv]
  refine ⟨by rw [hun], ?_, ?_, ?_⟩
  · rw [hun]
    simp only [List.filter_cons]
    have : isPhotoErrorEv (.batchStarted ids.length) = false := by rfl
    rw [this]
    simp only [Bool.false_eq_true, if_false]
    rw [processBatchIds_error_count]
    exact hnot
  · intro e he herr
    rw [hun] at he
    simp only [List.mem_cons] at he
    rcases he with rfl | he'
    · simp [isPhotoErrorEv] at herr
    · obtain ⟨hmem, hv⟩ :=
        processBatchIds_error_pids md5 sharpFn fsExists db q d ids st e he' herr
      exact ⟨hmem, hconv _ hmem (by simp [hv])⟩
  · intro pid hmem hav
    obtain ⟨b, c, pre, post, hblk⟩ :=
      processBatchIds_valid_delivery md5 sharpFn fsExists db q d ids st pid hmem hav
    refine ⟨b, c, .batchStarted ids.length :: pre, post, ?_⟩
    rw [hun]
    simp [hblk]

/-- Witness for `batch_missing_id_isolated`: a concrete 2-photo catalog and
the batch `[missing, a1, a2]`. -/
theorem batch_missing_id_isolated_witness :
    (handleBatchRequest (fun b => toString b.length) (fun _ _ _ => [3, 1])
        (fun _ => true)
        [⟨"a1", "x.jpg", "/r/x.jpg", 9, 5, 40, 30, "/r", ""⟩,
         ⟨"a2", "y.jpg", "/r/y.jpg", 8, 6, 40, 30, "/r", ""⟩]
        ⟨[], []⟩ ⟨some ["zz", "a1", "a2"], some 50, some 1920⟩).2.1 = .ok ∧
    ((handleBatchRequest (fun b => toString b.length) (fun _ _ _ => [3, 1])
        (fun _ => true)
        [⟨"a1", "x.jpg", "/r/x.jpg", 9, 5, 40, 30, "/r", ""⟩,
         ⟨"a2", "y.jpg", "/r/y.jpg", 8, 6, 40, 30, "/r", ""⟩]
        ⟨[], []⟩ ⟨some ["zz", "a1", "a2"], some 50, some 1920⟩).1.filter
        isPhotoErrorEv).length = 1 := by
  have h := batch_missing_id_isolated (fun b => toString b.length)
    (fun _ _ _ => [3, 1]) (fun _ => true)
    [⟨"a1", "x.jpg", "/r/x.jpg", 9, 5, 40, 30, "/r", ""⟩,
     ⟨"a2", "y.jpg", "/r/y.jpg", 8, 6, 40, 30, "/r", ""⟩]
    ⟨[], []⟩ 50 1920 ["zz", "a1", "a2"]
    (by norm_num) (by norm_num) (by rfl) (by rfl) (by rfl)
  exact ⟨h.1, h.2.1⟩

/-! ## Transfer worker queue (`PhotoWorker.queueJob` / `processQueue`)

The worker runs on a single-threaded event loop. `queueJob` pushes the job
and calls `processQueue`, which returns at once when `busy`; otherwise it
sets `busy`, shifts the first job and begins it. Each `await` inside the
loop is a suspension point at which further `enqueue`s may interleave.
`WAction.finishJob` is the event-loop turn in which the current job's
processing settles: `processQueue` catches a rejection (`job.reject`),
records the outcome, and immediately shifts the next queued job (or clears
`busy` when the queue is empty). `run j` abstracts whether processing job
`j` succeeds (`resolve`) or throws (`reject`) — catalog lookup, disk state
and delivery to the target session all folded into it. -/

structure Job where
  jobId : Nat
  jobType : String
  photoId : String
  sessionId : String
deriving DecidableEq

inductive TraceEv where
  | start (j : Job)
  | finish (j : Job)
deriving DecidableEq

/-- Worker state: `this.queue`, `this.busy`, the job currently inside the
loop body, settled promises, and the observable start/finish trace. -/
structure WState where
  queue : List Job
  busy : Bool
  running : Option Job
  results : List (Job × Bool)
  trace : List TraceEv
deriving DecidableEq

inductive WAction where
  | enqueue (j : Job)
  | finishJob
deriving DecidableEq

def wstep (run : Job → Bool) (s : WState) : WAction → WState
  | .enqueue j =>
    if s.busy then { s with queue := s.queue ++ [j] }
    else
      match s.queue with
      | [] =>
        { queue := [], busy := true, running := some j,
          results := s.results, trace := s.trace ++ [.start j] }
      | j0 :: rest =>
        { queue := rest ++ [j], busy := true, running := some j0,
          results := s.results, trace := s.trace ++ [.start j0] }
  | .finishJob =>
    match s.running with
    | none => s
    | some j =>
      match s.queue with
      | [] =>
        { queue := [], busy := false, running := none,
          results := s.results ++ [(j, run j)], trace := s.trace ++ [.finish j] }
      | j1 :: rest =>
        { queue := rest, busy := true, running := some j1,
          results := s.results ++ [(j, run j)],
          trace := s.trace ++ [.finish j, .start j1] }

def initWState : WState := ⟨[], false, none, [], []⟩

def wrun (run : Job → Bool) (acts : List WAction) : WState :=
  acts.foldl (wstep run) initWState

/-- Jobs of the `start` events, in order. -/
def startedJobs (t : List TraceEv) : List Job :=
  t.filterMap (fun e => match e with | .start j => some j | .finish _ => none)

/-- Jobs of the `finish` events, in order. -/
def finishedJobs (t : List TraceEv) : List Job :=
  t.filterMap (fun e => match e with | .finish j => some j | .start _ => none)

/-- Jobs enqueued by an action sequence, in order. -/
def enqueuedJobs (acts : List WAction) : List Job :=
  acts.filterMap (fun a => match a with | .enqueue j => some j | .finishJob => none)

/-- Single-flight reading of a trace: `some none` when idle, `some (some j)`
when exactly `j` is executing, `none` when the trace ever overlaps two
executions or finishes a job that is not the one running. -/
def traceStep : Option (Option Job) → TraceEv → Option (Option Job)
  | some none, .start j => some (some j)
  | some (some j), .finish j' => if j' = j then some none else none
  | _, _ => none

def traceState (t : List TraceEv) : Option (Option Job) :=
  t.foldl traceStep (some none)

def runningList (s : WState) : List Job :=
  match s.running with
  | some j => [j]
  | none => []

/-- The worker invariant tying a state to the jobs enqueued so far. -/
def WInv (run : Job → Bool) (E : List Job) (s : WState) : Prop :=
  s.busy = s.running.isSome ∧
  (s.running = none → s.queue = []) ∧
  traceState s.trace = some s.running ∧
  startedJobs s.trace ++ s.queue = E ∧
  startedJobs s.trace = finishedJobs s.trace ++ runningList s ∧
  s.results = (finishedJobs s.trace).map (fun j => (j, run j))

theorem traceState_append (t : List TraceEv) (l : List TraceEv) :
    traceState (t ++ l) = l.foldl traceStep (traceState t) := by
  simp [traceState, List.foldl_append]

theorem startedJobs_append (t l : List TraceEv) :
    startedJobs (t ++ l) = startedJobs t ++ startedJobs l := by
  simp [startedJobs]

theorem finishedJobs_append (t l : List TraceEv) :
    finishedJobs (t ++ l) = finishedJobs t ++ finishedJobs l := by
  simp [finishedJobs]

theorem startedJobs_one_start (j : Job) : startedJobs [.start j] = [j] := by
  simp [startedJobs]

theorem startedJobs_one_finish (j : Job) : startedJobs [.finish j] = [] := by
  simp [startedJobs]

theorem finishedJobs_one_start (j : Job) : finishedJobs [.start j] = [] := by
  simp [finishedJobs]

theorem finishedJobs_one_finish (j : Job) : finishedJobs [.finish j] = [j] := by
  simp [finishedJobs]

theorem wstep_preserves (run : Job → Bool) (E : List Job) (s : WState)
    (a : WAction) (h : WInv run E s) :
    WInv run (E ++ enqueuedJobs [a]) (wstep run s a) := by
  obtain ⟨hb, hid, hts, hfifo, hsf, hres⟩ := h
  cases a with
  | enqueue j =>
    have hE : enqueuedJobs [WAction.enqueue j] = [j] := by simp [enqueuedJobs]
    rw [hE]
    cases hbusy : s.busy with
    | true =>
      have heq : wstep run s (.enqueue j) = { s with queue := s.queue ++ [j] } := by
        simp [wstep, hbusy]
      have hrun : s.running.isSome = true := by rw [← hb]; exact hbusy
      rw [heq]
      refine ⟨hb, ?_, hts, ?_, ?_, hres⟩
      · intro hn
        rw [hn] at hrun
        simp at hrun
      · show startedJobs s.trace ++ (s.queue ++ [j]) = E ++ [j]
        rw [← List.append_assoc, hfifo]
      · exact hsf
    | false =>
      have hrn : s.running = none := by
        cases hr : s.running with
        | none => rfl
        | some jj => rw [hr] at hb; rw [hb] at hbusy; simp at hbusy
      have hq : s.queue = [] := hid hrn
      have heq : wstep run s (.enqueue j)
          = { queue := [], busy := true, running := some j,
              results := s.results, trace := s.trace ++ [.start j] } := by
        simp [wstep, hbusy, hq]
      have hts0 : traceState s.trace = some none := by rw [hts, hrn]
      rw [heq]
      refine ⟨by simp, by simp, ?_, ?_, ?_, ?_⟩
      · show traceState (s.trace ++ [.start j]) = some (some j)
        rw [traceState_append, hts0]
        simp [traceStep]
      · show startedJobs (s.trace ++ [.start j]) ++ [] = E ++ [j]
        rw [startedJobs_append, startedJobs_one_start]
        rw [hq] at hfifo
        simp at hfifo
        simp [hfifo]
      · show startedJobs (s.trace ++ [.start j])
            = finishedJobs (s.trace ++ [.start j]) ++ runningList _
        rw [startedJobs_append, startedJobs_one_start, finishedJobs_append,
          finishedJobs_one_start]
        have hrl0 : runningList s = [] := by simp [runningList, hrn]
        rw [hsf, hrl0]
        simp [runningList]
      · show s.results = (finishedJobs (s.trace ++ [.start j])).map (fun j => (j, run j))
        rw [finishedJobs_append, finishedJobs_one_start]
        simpa using hres
  | finishJob =>
    have hE : enqueuedJobs [WAction.finishJob] = [] := by simp [enqueuedJobs]
    rw [hE, List.append_nil]
    cases hr : s.running with
    | none =>
      have heq : wstep run s .finishJob = s := by simp [wstep, hr]
      rw [heq]
      exact ⟨hb, hid, hts, hfifo, hsf, hres⟩
    | some j =>
      have htsj : traceState s.trace = some (some j) := by rw [hts, hr]
      have hrl : runningList s = [j] := by simp [runningList, hr]
      cases hq : s.queue with
      | nil =>
        have heq : wstep run s .finishJob
            = { queue := [], busy := false, running := none,
                results := s.results ++ [(j, run j)],
                trace := s.trace ++ [.finish j] } := by
          simp [wstep, hr, hq]
        rw [heq]
        refine ⟨by simp, by simp, ?_, ?_, ?_, ?_⟩
        · show traceState (s.trace ++ [.finish j]) = some none
          rw [traceState_append, htsj]
          simp [traceStep]
        · show startedJobs (s.trace ++ [.finish j]) ++ [] = E
          rw [startedJobs_append, startedJobs_one_finish]
          rw [hq] at hfifo
          simpa using hfifo
        · show startedJobs (s.trace ++ [.finish j])
              = finishedJobs (s.trace ++ [.finish j]) ++ runningList _
          rw [startedJobs_append, startedJobs_one_finish, finishedJobs_append,
            finishedJobs_one_finish]
          rw [hsf, hrl]
          simp [runningList]
        · show s.results ++ [(j, run j)]
              = (finishedJobs (s.trace ++ [.finish j])).map (fun j => (j, run j))
          rw [finishedJobs_append, finishedJobs_one_finish, List.map_append, ← hres]
          simp
      | cons j1 rest =>
        have heq : wstep run s .finishJob
            = { queue := rest, busy := true, running := some j1,
                results := s.results ++ [(j, run j)],
                trace := s.trace ++ [.finish j, .start j1] } := by
          simp [wstep, hr, hq]
        rw [heq]
        refine ⟨by simp, by simp, ?_, ?_, ?_, ?_⟩
        · show traceState (s.trace ++ [.finish j, .start j1]) = some (some j1)
          rw [traceState_append, htsj]
          simp [traceStep]
        · show startedJobs (s.trace ++ [.finish j, .start j1]) ++ rest = E
          have h2 : startedJobs [TraceEv.finish j, TraceEv.start j1] = [j1] := by
            simp [startedJobs]
          rw [startedJobs_append, h2]
          rw [hq] at hfifo
          rw [List.append_assoc]
          simpa using hfifo
        · show startedJobs (s.trace ++ [.finish j, .start j1])
              = finishedJobs (s.trace ++ [.finish j, .start j1]) ++ runningList _
          have h2 : startedJobs [TraceEv.finish j, TraceEv.start j1] = [j1] := by
            simp [startedJobs]
          have h3 : finishedJobs [TraceEv.finish j, TraceEv.start j1] = [j] := by
            simp [finishedJobs]
          rw [startedJobs_append, h2, finishedJobs_append, h3, hsf, hrl]
          simp [runningList]
        · show s.results ++ [(j, run j)]
              = (finishedJobs (s.trace ++ [.finish j, .start j1])).map (fun j => (j, run j))
          have h3 : finishedJobs [TraceEv.finish j, TraceEv.start j1] = [j] := by
            simp [finishedJobs]
          rw [finishedJobs_append, h3, List.map_append, ← hres]
          simp

theorem wrun_inv (run : Job → Bool) (acts : List WAction) :
    WInv run (enqueuedJobs acts) (wrun run acts) := by
  have main : ∀ (acts2 : List WAction) (s : WState) (E : List Job),
      WInv run E s → WInv run (E ++ enqueuedJobs acts2) (acts2.foldl (wstep run) s) := by
    intro acts2
    induction acts2 with
    | nil => intro s E h; simpa [enqueuedJobs] using h
    | cons a rest ih =>
      intro s E h
      have h2 := ih (wstep run s a) (E ++ enqueuedJobs [a]) (wstep_preserves run E s a h)
      have hsplit : enqueuedJobs (a :: rest) = enqueuedJobs [a] ++ enqueuedJobs rest := by
        cases a <;> simp [enqueuedJobs]
      rw [List.foldl_cons, hsplit, ← List.append_assoc]
      exact h2
  have hinit : WInv run [] initWState := by
    refine ⟨rfl, fun _ => rfl, rfl, rfl, rfl, rfl⟩
  simpa [wrun] using main acts initWState [] hinit

/-- Exhausting the worker loop: keep taking `finishJob` turns until idle. -/
def drainFuel (run : Job → Bool) : Nat → WState → WState
  | 0, s => s
  | n + 1, s =>
    match s.running with
    | none => s
    | some _ => drainFuel run n (wstep run s .finishJob)

def drain (run : Job → Bool) (s : WState) : WState :=
  drainFuel run (s.queue.length + 1) s

theorem drainFuel_idle (run : Job → Bool) (m : Nat) (s : WState)
    (h : s.running = none) : drainFuel run m s = s := by
  cases m with
  | zero => rfl
  | succ m => simp [drainFuel, h]

theorem drainFuel_results (run : Job → Bool) :
    ∀ (n : Nat) (s : WState), s.queue.length < n →
      (s.running = none → s.queue = []) →
      (drainFuel run n s).results
        = s.results ++ (runningList s ++ s.queue).map (fun j => (j, run j)) := by
  intro n
  induction n with
  | zero => intro s h _; exact absurd h (Nat.not_lt_zero _)
  | succ n ih =>
    intro s hlen hid
    cases hr : s.running with
    | none =>
      have hq := hid hr
      simp [drainFuel, hr, runningList, hq]
    | some j =>
      have hd : drainFuel run (n + 1) s = drainFuel run n (wstep run s .finishJob) := by
        simp [drainFuel, hr]
      cases hq : s.queue with
      | nil =>
        have heq : wstep run s .finishJob
            = { queue := [], busy := false, running := none,
                results := s.results ++ [(j, run j)],
                trace := s.trace ++ [.finish j] } := by
          simp [wstep, hr, hq]
        rw [hd, heq, drainFuel_idle run n _ rfl]
        simp [runningList, hr, hq]
      | cons j1 rest =>
        have heq : wstep run s .finishJob
            = { queue := rest, busy := true, running := some j1,
                results := s.results ++ [(j, run j)],
                trace := s.trace ++ [.finish j, .start j1] } := by
          simp [wstep, hr, hq]
        have hlen2 : rest.length < n := by
          rw [hq] at hlen
          simpa using hlen
        rw [hd, heq]
        rw [ih _ (by simpa using hlen2) (by intro hc; simp at hc)]
        simp [runningList, hr, hq]

/-- C6: the Transfer Worker is single-flight (its start/finish trace parses
as strictly alternating executions — at most one job running at any point),
processes queued jobs in FIFO enqueue order, records for every finished job
its own outcome (a failure rejects only that job's promise), and draining
the loop from any reachable state completes every enqueued job — including
every job queued behind a failing one or targeting another session — so
the worker never stalls globally. -/
theorem worker_single_flight_fifo_no_stall (run : Job → Bool) (acts : List WAction) :
    traceState (wrun run acts).trace = some (wrun run acts).running ∧
    startedJobs (wrun run acts).trace ++ (wrun run acts).queue = enqueuedJobs acts ∧
    (wrun run acts).results
      = (finishedJobs (wrun run acts).trace).map (fun j => (j, run j)) ∧
    (drain run (wrun run acts)).results
      = (enqueuedJobs acts).map (fun j => (j, run j)) := by
  obtain ⟨hb, hid, hts, hfifo, hsf, hres⟩ := wrun_inv run acts
  refine ⟨hts, hfifo, hres, ?_⟩
  have hd := drainFuel_results run ((wrun run acts).queue.length + 1)
    (wrun run acts) (by omega) hid
  rw [drain, hd, hres, ← List.map_append]
  congr 1
  rw [← List.append_assoc, ← hsf, hfifo]

/-! ## Revocation watch (`startTokenFileWatcher` / `checkAuthenticatedConnections`)

`fs.watch` on the token file fires the change handler, which calls
`deviceTokenManager.refreshCache()` and then sweeps every connected socket
— no client traffic is involved. The handler below is that change
callback. -/

inductive SessionAction where
  | emitAuthRevoked (reason : String)
  | disconnect
deriving DecidableEq

/-- The slice of a connected socket the sweep reads: `socket.id`,
`socket.data.authenticated`, `socket.data.authToken`. -/
structure LiveSocket where
  sid : String
  authenticated : Bool
  authToken : String
deriving DecidableEq

/-- `checkAuthenticatedConnections()`: for every authenticated socket,
re-validate its token; on failure emit `auth:revoked` (with the reason)
and then force-disconnect. -/
def checkAuthenticatedConnections (file : List TokenRec) (tm : TMState)
    (now : Nat) : List LiveSocket → List (String × List SessionAction) × TMState
  | [] => ([], tm)
  | s :: rest =>
    if s.authenticated then
      let vr := validateToken file tm now (.str s.authToken)
      let acts := match vr.1 with
        | .invalid r => [SessionAction.emitAuthRevoked r, SessionAction.disconnect]
        | .ok _ => []
      let rres := checkAuthenticatedConnections file vr.2 now rest
      ((s.sid, acts) :: rres.1, rres.2)
    else
      checkAuthenticatedConnections file tm now rest

/-- The `fs.watch` change handler: `refreshCache()` then
`checkAuthenticatedConnections()`. -/
def onTokenFileChange (file : List TokenRec) (tm : TMState) (now : Nat)
    (socks : List LiveSocket) : List (String × List SessionAction) × TMState :=
  let r0 := refreshCache file tm now
  checkAuthenticatedConnections file r0.2 now socks

theorem validateToken_fresh (file : List TokenRec) (now : Nat) (cred : Cred) :
    validateToken file ⟨some file, now⟩ now cred
      = (validateTokenWith file now cred, ⟨some file, now⟩) := by
  have hrt : readTokens file ⟨some file, now⟩ now = (file, ⟨some file, now⟩) := by
    simp [readTokens, CACHE_TTL]
  cases cred with
  | missing => rfl
  | nonString => rfl
  | str v =>
    simp only [validateToken, validateTokenWith, hrt]
    split
    · rfl
    · split
      · rfl
      · cases h : file.find? (fun t => t.token == v) with
        | none => simp [h]
        | some t =>
          simp only [h]
          split
          · rfl
          · split <;> rfl

theorem checkAuthenticatedConnections_fresh (file : List TokenRec) (now : Nat) :
    ∀ socks : List LiveSocket,
      checkAuthenticatedConnections file ⟨some file, now⟩ now socks
        = ((socks.filter (fun s => s.authenticated)).map
            (fun s => (s.sid,
              match validateTokenWith file now (.str s.authToken) with
              | .invalid r => [SessionAction.emitAuthRevoked r, SessionAction.disconnect]
              | .ok _ => [])),
           ⟨some file, now⟩) := by
  intro socks
  induction socks with
  | nil => rfl
  | cons s rest ih =>
    cases ha : s.authenticated with
    | true =>
      simp only [checkAuthenticatedConnections, ha, if_true, validateToken_fresh,
        List.filter_cons, List.map_cons, ih]
    | false =>
      simp only [checkAuthenticatedConnections, ha, Bool.false_eq_true, if_false,
        List.filter_cons, ih]

/-- C8: when the token store changes, the change handler invalidates the
short-TTL cache and reloads the current store, re-validates every live
authenticated session against it, sends every session whose token no
longer validates an `auth:revoked` notification carrying the reason and
only then force-disconnects it (never silently), and leaves every session
whose token still validates connected and untouched — all within the one
change-handler run, with no client traffic involved. -/
theorem token_change_revalidates_sessions (file : List TokenRec) (tm : TMState)
    (now : Nat) (socks : List LiveSocket) (hnow : CACHE_TTL ≤ now) :
    (onTokenFileChange file tm now socks).2 = ⟨some file, now⟩ ∧
    (onTokenFileChange file tm now socks).1
      = (socks.filter (fun s => s.authenticated)).map
          (fun s => (s.sid,
            match validateTokenWith file now (.str s.authToken) with
            | .invalid r => [SessionAction.emitAuthRevoked r, SessionAction.disconnect]
            | .ok _ => [])) ∧
    (∀ s ∈ socks, s.authenticated = true →
      ∀ r, validateTokenWith file now (.str s.authToken) = .invalid r →
        (s.sid, [SessionAction.emitAuthRevoked r, SessionAction.disconnect])
          ∈ (onTokenFileChange file tm now socks).1) ∧
    (∀ s ∈ socks, s.authenticated = true →
      ∀ t, validateTokenWith file now (.str s.authToken) = .ok t →
        (s.sid, ([] : List SessionAction)) ∈ (onTokenFileChange file tm now socks).1) := by
  have hrefresh : (refreshCache file tm now).2 = ⟨some file, now⟩ := by
    unfold refreshCache readTokens
    have hge : ¬ now < CACHE_TTL := by omega
    cases tm.cache <;> simp [hge]
  have hmain : onTokenFileChange file tm now socks
      = ((socks.filter (fun s => s.authenticated)).map
          (fun s => (s.sid,
            match validateTokenWith file now (.str s.authToken) with
            | .invalid r => [SessionAction.emitAuthRevoked r, SessionAction.disconnect]
            | .ok _ => [])),
         ⟨some file, now⟩) := by
    simp only [onTokenFileChange]
    rw [hrefresh]
    exact checkAuthenticatedConnections_fresh file now socks
  refine ⟨by rw [hmain], by rw [hmain], ?_, ?_⟩
  · intro s hs ha r hr
    rw [hmain]
    have hmem : s ∈ socks.filter (fun s => s.authenticated) :=
      List.mem_filter.mpr ⟨hs, ha⟩
    refine List.mem_map.mpr ⟨s, hmem, ?_⟩
    simp only [hr]
  · intro s hs ha t ht
    rw [hmain]
    have hmem : s ∈ socks.filter (fun s => s.authenticated) :=
      List.mem_filter.mpr ⟨hs, ha⟩
    refine List.mem_map.mpr ⟨s, hmem, ?_⟩
    simp only [ht]

/-- Witness for `token_change_revalidates_sessions`: a store holding one
revoked token; the session using it gets `auth:revoked` then a disconnect. -/
theorem token_change_revalidates_witness :
    (onTokenFileChange
        [⟨"0000000000000000000000000000000000000000000000000000000000000000",
          "d1", "phone", "u1", "u@x", false, 9999999⟩]
        ⟨none, 0⟩ 5000
        [⟨"s1", true,
          "0000000000000000000000000000000000000000000000000000000000000000"⟩]).1
      = [("s1", [SessionAction.emitAuthRevoked "TOKEN_REVOKED",
                 SessionAction.disconnect])] := by
  have h := token_change_revalidates_sessions
    [⟨"0000000000000000000000000000000000000000000000000000000000000000",
      "d1", "phone", "u1", "u@x", false, 9999999⟩]
    ⟨none, 0⟩ 5000
    [⟨"s1", true,
      "0000000000000000000000000000000000000000000000000000000000000000"⟩]
    (by norm_num [CACHE_TTL])
  rw [h.2.1]
  rfl

/-! ## Manifests (`SocketIOServer.handleManifestRequest` and
`WebRTCManager.sendManifest`) -/

/-- One entry of the Streaming manifest (`path` deliberately excluded). -/
structure ManifestEntry where
  id : String
  filename : String
  size : Nat
  modified : Nat
  width : Nat
  height : Nat
deriving DecidableEq

/-- The Streaming `manifest:request` acknowledgment payload. -/
structure ManifestAck where
  count : Nat
  hash : String
  photos : List ManifestEntry
  timestamp : Nat
deriving DecidableEq

/-- `photos.map(p => p.id).sort().join('')` — JS default sort is
lexicographic string order. -/
def sortedIdsJoined (photos : List Photo) : String :=
  String.join ((photos.map (fun p => p.id)).mergeSort (fun a b => a ≤ b))

/-- `handleManifestRequest`: public fields only, hash = md5 over the
sorted ids joined. -/
def handleManifestRequest (md5s : String → String) (now : Nat)
    (photos : List Photo) : ManifestAck :=
  { count := photos.length,
    hash := md5s (sortedIdsJoined photos),
    photos := photos.map (fun p =>
      ⟨p.id, p.filename, p.size, p.modified, p.width, p.height⟩),
    timestamp := now }

/-- One entry of the P2P manifest. The source reads `photo.name` and
`photo.created`, properties that catalog records do not have, so both are
`undefined` (modelled as `none`); there is no `filename` field. -/
structure P2PManifestEntry where
  id : String
  name : Option String
  size : Nat
  width : Nat
  height : Nat
  modified : Nat
  created : Option Nat
deriving DecidableEq

/-- The P2P `manifest` message: `{type, photos, count}` — it has no hash
field at all. -/
structure P2PManifestMsg where
  photos : List P2PManifestEntry
  count : Nat
deriving DecidableEq

/-- `WebRTCManager.sendManifest`. -/
def sendManifest (photos : List Photo) : P2PManifestMsg :=
  { photos := photos.map (fun p =>
      ⟨p.id, none, p.size, p.width, p.height, p.modified, none⟩),
    count := photos.length }

/-- C1 counterexample: the P2P manifest does not carry the `filename`
field — two catalogs differing only in a photo's filename produce the
identical P2P manifest message (which also carries no content hash, as its
shape shows), so the claim fails on the P2P transport. -/
theorem manifest_fields_counterexample :
    sendManifest [⟨"a1", "x.jpg", "/r/x.jpg", 9, 5, 40, 30, "/r", ""⟩]
      = sendManifest [⟨"a1", "OTHER.jpg", "/r/x.jpg", 9, 5, 40, 30, "/r", ""⟩] ∧
    ("x.jpg" : String) ≠ "OTHER.jpg" := by
  exact ⟨rfl, by decide⟩

/-- C1 amended: on the Streaming transport the manifest is exactly one
entry `{id, filename, size, modified, width, height}` per catalog record
with content hash computed over the sorted ids, and is independent of the
records' filesystem paths; on the P2P transport the manifest is one entry
`{id, name, size, width, height, modified, created}` per record (with
`name`/`created` undefined, no `filename`), carries a count but no content
hash, and is likewise path-independent. -/
theorem manifest_shape_amended (md5s : String → String) (now : Nat)
    (photos : List Photo) :
    (handleManifestRequest md5s now photos).photos
        = photos.map (fun p => ⟨p.id, p.filename, p.size, p.modified, p.width, p.height⟩) ∧
    (handleManifestRequest md5s now photos).count = photos.length ∧
    (handleManifestRequest md5s now photos).hash = md5s (sortedIdsJoined photos) ∧
    (∀ f : String → String,
      handleManifestRequest md5s now (photos.map (fun p => { p with path := f p.path }))
        = handleManifestRequest md5s now photos) ∧
    sendManifest photos
        = ⟨photos.map (fun p => ⟨p.id, none, p.size, p.width, p.height, p.modified, none⟩),
           photos.length⟩ ∧
    (∀ f : String → String,
      sendManifest (photos.map (fun p => { p with path := f p.path }))
        = sendManifest photos) := by
  refine ⟨rfl, rfl, rfl, ?_, rfl, ?_⟩
  · intro f
    unfold handleManifestRequest sortedIdsJoined
    simp only [List.map_map, List.length_map]
    rfl
  · intro f
    unfold sendManifest
    simp only [List.map_map, List.length_map]
    rfl

/-! ## P2P photo delivery (`WebRTCManager.sendPhoto`) -/

/-- Messages and raw binary chunks sent over one data channel. -/
inductive P2PMsg where
  | photoStart (photoId : String) (name : Option String) (size : Nat) (mimeType : String)
  | binChunk (data : Bytes)
  | photoComplete (photoId : String) (totalBytes : Nat)
  | errorMsg (photoId : String) (error : String)
deriving DecidableEq

/-- 64 KB chunk size. -/
def CHUNK_SIZE : Nat := 64 * 1024

/-- The chunking loop (`while offset < photoBuffer.length`). -/
def chunksOf (b : Bytes) : List Bytes :=
  if h : b = [] then []
  else b.take CHUNK_SIZE :: chunksOf (b.drop CHUNK_SIZE)
termination_by b.length
decreasing_by
  have hpos : 0 < b.length := List.length_pos.mpr h
  simp only [List.length_drop, CHUNK_SIZE]
  omega

/-- The framing around one photo buffer: `photo-start` (with the
`photo.name` property, which records do not have — `undefined` — and a
constant `image/jpeg` mime), the binary chunks, then `photo-complete`. -/
def deliverPhoto (photoId : String) (b : Bytes) : List P2PMsg :=
  .photoStart photoId none b.length "image/jpeg"
    :: ((chunksOf b).map P2PMsg.binChunk ++ [.photoComplete photoId b.length])

/-- `WebRTCManager.sendPhoto` with the peer connected throughout (the
per-chunk connectivity guard never fires). `sharpTry` is the resample
pipeline, which may throw; on failure the `catch` falls back to
`fs.readFileSync(photo.path)` and delivery proceeds with the raw bytes;
if even that read throws, the outer `catch` sends an `error` message. -/
def sendPhoto (db : List Photo) (fsRead : String → Option Bytes)
    (sharpTry : String → Int → Int → Except String Bytes)
    (photoId : String) (quality maxDimension : Int) : List P2PMsg :=
  match getPhotoById db photoId with
  | none => [.errorMsg photoId "Photo not found"]
  | some photo =>
    match sharpTry photo.path quality maxDimension with
    | .ok b => deliverPhoto photoId b
    | .error _ =>
      match fsRead photo.path with
      | some b => deliverPhoto photoId b
      | none => [.errorMsg photoId "ENOENT"]

theorem chunksOf_flatten_aux :
    ∀ (n : Nat) (b : Bytes), b.length ≤ n → (chunksOf b).flatten = b := by
  intro n
  induction n with
  | zero =>
    intro b hb
    have hnil : b = [] := List.length_eq_zero.mp (Nat.le_zero.mp hb)
    subst hnil
    rw [chunksOf]
    simp
  | succ n ih =>
    intro b hb
    by_cases h : b = []
    · subst h; rw [chunksOf]; simp
    · rw [chunksOf, dif_neg h]
      have hpos : 0 < b.length := List.length_pos.mpr h
      have hdrop : (b.drop CHUNK_SIZE).length ≤ n := by
        simp only [List.length_drop, CHUNK_SIZE] at *
        omega
      simp only [List.flatten_cons, ih (b.drop CHUNK_SIZE) hdrop]
      exact List.take_append_drop CHUNK_SIZE b

theorem chunksOf_flatten (b : Bytes) : (chunksOf b).flatten = b :=
  chunksOf_flatten_aux b.length b (Nat.le_refl _)

/-- C10: when a request-photo names a catalogued id whose source file
exists but whose resampling throws, no error message is sent: the raw,
unprocessed original file bytes become the payload, and `photo-start`
still declares mime `image/jpeg` no matter the file's actual format. -/
theorem p2p_resample_failure_sends_raw (db : List Photo)
    (fsRead : String → Option Bytes)
    (sharpTry : String → Int → Int → Except String Bytes)
    (photoId : String) (quality maxDimension : Int)
    (p : Photo) (raw : Bytes) (e : String)
    (hp : getPhotoById db photoId = some p)
    (hsharp : sharpTry p.path quality maxDimension = .error e)
    (hread : fsRead p.path = some raw) :
    sendPhoto db fsRead sharpTry photoId quality maxDimension
        = .photoStart photoId none raw.length "image/jpeg"
            :: ((chunksOf raw).map P2PMsg.binChunk
                ++ [.photoComplete photoId raw.length]) ∧
    (∀ m ∈ sendPhoto db fsRead sharpTry photoId quality maxDimension,
      ∀ pid2 err, m ≠ .errorMsg pid2 err) ∧
    ((sendPhoto db fsRead sharpTry photoId quality maxDimension).filterMap
        (fun m => match m with | .binChunk c => some c | _ => none)).flatten
      = raw := by
  have hmain : sendPhoto db fsRead sharpTry photoId quality maxDimension
      = .photoStart photoId none raw.length "image/jpeg"
          :: ((chunksOf raw).map P2PMsg.binChunk
              ++ [.photoComplete photoId raw.length]) := by
    simp [sendPhoto, hp, hsharp, hread, deliverPhoto]
  refine ⟨hmain, ?_, ?_⟩
  · intro m hm pid2 err
    rw [hmain] at hm
    simp only [List.mem_cons, List.mem_append, List.mem_map] at hm
    rcases hm with rfl | ⟨c, _, rfl⟩ | hm
    · intro hc; cases hc
    · intro hc; cases hc
    · simp at hm
      subst hm
      intro hc; cases hc
  · rw [hmain]
    simp [List.filterMap_cons, List.filterMap_append, List.filterMap_map,
      Function.comp_def, chunksOf_flatten]

/-- Witness for `p2p_resample_failure_sends_raw` at a concrete catalog with
a PNG original and a failing resampler. -/
theorem p2p_resample_failure_witness :
    sendPhoto [⟨"a1", "x.png", "/r/x.png", 3, 5, 40, 30, "/r", ""⟩]
        (fun _ => some [9, 8, 7]) (fun _ _ _ => .error "boom") "a1" 60 1920
      = .photoStart "a1" none 3 "image/jpeg"
          :: ((chunksOf [9, 8, 7]).map P2PMsg.binChunk
              ++ [.photoComplete "a1" 3]) :=
  (p2p_resample_failure_sends_raw
    [⟨"a1", "x.png", "/r/x.png", 3, 5, 40, 30, "/r", ""⟩]
    (fun _ => some [9, 8, 7]) (fun _ _ _ => .error "boom") "a1" 60 1920
    ⟨"a1", "x.png", "/r/x.png", 3, 5, 40, 30, "/r", ""⟩ [9, 8, 7] "boom"
    (by rfl) (by rfl) (by rfl)).1

/-! ## Folder hierarchy derivation (`buildFolderStructure` /
`PhotoDatabase.getFolderStructure` — the two copies are identical)

The derivation is a pure function of the catalog snapshot: it reads only
`photosDatabase`. The `Map` keyed by `` `${rootPath}::${folderPath}` `` is
an insertion-ordered association list; `h` abstracts the md5-prefix id. -/

def folderKey (rootPath folderPath : String) : String :=
  rootPath ++ "::" ++ folderPath

/-- `path.basename` on a forward-slash path. -/
def basenameOf (s : String) : String :=
  (s.splitOn "/").getLastD ""

structure FolderData where
  fid : String
  rootPath : String
  folderPath : String
  displayName : String
  fullPath : String
  photoCount : Nat
deriving DecidableEq

/-- The folder object built on first sight of a key. -/
def mkFolder (h : String → String) (rootPath folderPath : String) : FolderData :=
  { fid := h (folderKey rootPath folderPath),
    rootPath := rootPath, folderPath := folderPath,
    displayName := if folderPath = "" then basenameOf rootPath else basenameOf folderPath,
    fullPath := if folderPath = "" then rootPath else rootPath ++ "/" ++ folderPath,
    photoCount := 0 }

abbrev FolderMap := List (String × FolderData)

def ensureFolderExists (h : String → String) (m : FolderMap)
    (rootPath folderPath : String) : FolderMap :=
  if (alookup m (folderKey rootPath folderPath)).isSome then m
  else m ++ [(folderKey rootPath folderPath, mkFolder h rootPath folderPath)]

/-- `folderMap.get(key).photoCount++` (the key is always present when the
source runs this line). -/
def bumpCount (m : FolderMap) (key : String) : FolderMap :=
  match alookup m key with
  | some f => aset m key { f with photoCount := f.photoCount + 1 }
  | none => m

/-- The ancestor prefixes `pathParts.slice(0, i + 1).join('/')` for
`i = 0 .. parts.length - 1` (empty for the root-level path). -/
def ancestorPaths (folderPath : String) : List String :=
  if folderPath = "" then []
  else
    (List.range (folderPath.splitOn "/").length).map
      (fun i => String.intercalate "/" ((folderPath.splitOn "/").take (i + 1)))

/-- The per-photo body of the collection `forEach`. -/
def addPhotoFolders (h : String → String) (m : FolderMap) (p : Photo) : FolderMap :=
  let m1 := ensureFolderExists h m p.rootPath ""
  let m2 := (ancestorPaths p.folderPath).foldl
    (fun acc ap => ensureFolderExists h acc p.rootPath ap) m1
  bumpCount m2 (folderKey p.rootPath p.folderPath)

def collectFolders (h : String → String) (photos : List Photo) : FolderMap :=
  photos.foldl (addPhotoFolders h) []

/-- `folder.folderPath.split('/').slice(0, -1).join('/')`. -/
def parentPathOf (folderPath : String) : String :=
  String.intercalate "/" ((folderPath.splitOn "/").dropLast)

/-- The linking pass state: per-key subfolder lists (the `subfolders`
arrays) and the root folder list. -/
structure LinkState where
  subs : List (String × List FolderData)
  roots : List FolderData

/-- One step of the linking `forEach`: roots are collected; a non-root is
appended to its parent's subfolder list when the parent exists and no
subfolder with the same id was already pushed. -/
def linkStep (m : FolderMap) (ls : LinkState) (f : FolderData) : LinkState :=
  if f.folderPath = "" then { ls with roots := ls.roots ++ [f] }
  else
    match alookup m (folderKey f.rootPath (parentPathOf f.folderPath)) with
    | none => ls
    | some _ =>
      let pk := folderKey f.rootPath (parentPathOf f.folderPath)
      let cur := (alookup ls.subs pk).getD []
      if cur.any (fun sf => sf.fid == f.fid) then ls
      else { ls with subs := aset ls.subs pk (cur ++ [f]) }

def linkFolders (m : FolderMap) : LinkState :=
  (m.map Prod.snd).foldl (linkStep m) ⟨[], []⟩

/-- The tree returned to the client: folder data, `totalPhotoCount`, and
the pruned `subfolders`. -/
inductive FolderNode where
  | node (fdata : FolderData) (total : Nat) (subs : List FolderNode)

def FolderNode.total : FolderNode → Nat
  | .node _ t _ => t

def FolderNode.fdata : FolderNode → FolderData
  | .node d _ _ => d

def FolderNode.subs : FolderNode → List FolderNode
  | .node _ _ s => s

/-- `calculateRecursiveCount`: the recursive total adds every subfolder's
recursive count (kept or dropped), and only subfolders with a positive
count are kept. The fuel bounds the recursion depth; `buildFolderStructure`
passes more fuel than the longest folder path, which dominates the depth
of the parent-key chains, so the fuel never runs out there. -/
def calcNode (subsOf : String → List FolderData) : Nat → FolderData → FolderNode
  | 0, f => .node f f.photoCount []
  | fuel + 1, f =>
    let childNodes := (subsOf (folderKey f.rootPath f.folderPath)).map
      (calcNode subsOf fuel)
    .node f (f.photoCount + (childNodes.map FolderNode.total).sum)
      (childNodes.filter (fun c => 0 < c.total))

def maxFolderPathLen (m : FolderMap) : Nat :=
  (m.map (fun e => e.2.folderPath.length)).foldr max 0

/-- `buildFolderStructure()`: collect, link, compute recursive counts, and
keep only root folders holding photos. -/
def buildFolderStructure (h : String → String) (photos : List Photo) :
    List FolderNode × Nat :=
  let m := collectFolders h photos
  let ls := linkFolders m
  let rootNodes := ls.roots.map
    (calcNode (fun k => (alookup ls.subs k).getD []) (maxFolderPathLen m + 1))
  (rootNodes.filter (fun n => 0 < n.total), photos.length)

/-- All nodes of a returned tree (the node itself and, recursively, its
kept subfolders). -/
def allNodes : FolderNode → List FolderNode
  | .node d t subs =>
    .node d t subs :: (subs.attach.map (fun c => allNodes c.1)).flatten
decreasing_by
  have h1 := List.sizeOf_lt_of_mem c.2
  simp only [FolderNode.node.sizeOf_spec]
  omega

theorem mem_allNodes (n : FolderNode) (d : FolderData) (t : Nat)
    (subs : List FolderNode) :
    n ∈ allNodes (.node d t subs) ↔
      n = .node d t subs ∨ ∃ c ∈ subs, n ∈ allNodes c := by
  rw [allNodes]
  simp only [List.mem_cons, List.mem_flatten, List.mem_map, List.mem_attach,
    true_and]
  constructor
  · rintro (rfl | ⟨l, ⟨⟨c, hc⟩, rfl⟩, hn⟩)
    · exact Or.inl rfl
    · exact Or.inr ⟨c, hc, hn⟩
  · rintro (rfl | ⟨c, hc, hn⟩)
    · exact Or.inl rfl
    · exact Or.inr ⟨allNodes c, ⟨⟨c, hc⟩, rfl⟩, hn⟩

theorem sum_filter_pos (l : List FolderNode) :
    ((l.filter (fun c => 0 < c.total)).map FolderNode.total).sum
      = (l.map FolderNode.total).sum := by
  induction l with
  | nil => rfl
  | cons c rest ih =>
    by_cases hc : 0 < c.total
    · simp [List.filter_cons, hc, ih]
    · have hz : c.total = 0 := by omega
      simp [List.filter_cons, hc, ih, hz]

theorem calcNode_nodes_sound (S : String → List FolderData) :
    ∀ (fuel : Nat) (f : FolderData) (n : FolderNode),
      n ∈ allNodes (calcNode S fuel f) →
      (n.total = n.fdata.photoCount + (n.subs.map FolderNode.total).sum ∧
       ∀ c ∈ n.subs, 0 < c.total) := by
  intro fuel
  induction fuel with
  | zero =>
    intro f n hn
    rw [calcNode, mem_allNodes] at hn
    rcases hn with rfl | ⟨c, hc, _⟩
    · refine ⟨by simp [FolderNode.total, FolderNode.fdata, FolderNode.subs], ?_⟩
      intro c hc
      simp [FolderNode.subs] at hc
    · simp at hc
  | succ fuel ih =>
    intro f n hn
    rw [calcNode, mem_allNodes] at hn
    rcases hn with rfl | ⟨c, hc, hn⟩
    · refine ⟨?_, ?_⟩
      · show f.photoCount
            + ((((S (folderKey f.rootPath f.folderPath)).map (calcNode S fuel)).map
                FolderNode.total).sum)
          = f.photoCount
            + (((((S (folderKey f.rootPath f.folderPath)).map (calcNode S fuel)).filter
                (fun c => 0 < c.total)).map FolderNode.total).sum)
        rw [sum_filter_pos]
      · intro c hc
        have hc2 : c ∈ ((S (folderKey f.rootPath f.folderPath)).map
            (calcNode S fuel)).filter (fun c => 0 < c.total) := hc
        exact of_decide_eq_true (List.mem_filter.mp hc2).2
    · have hc2 := (List.mem_filter.mp hc).1
      obtain ⟨g, hg, rfl⟩ := List.mem_map.mp hc2
      exact ih g n hn

theorem calcNode_pos (S : String → List FolderData) :
    ∀ (fuel : Nat) (f : FolderData) (n : FolderNode),
      n ∈ allNodes (calcNode S fuel f) →
      0 < (calcNode S fuel f).total → 0 < n.total := by
  intro fuel
  induction fuel with
  | zero =>
    intro f n hn hpos
    rw [calcNode] at hn hpos
    rw [mem_allNodes] at hn
    rcases hn with rfl | ⟨c, hc, _⟩
    · exact hpos
    · simp at hc
  | succ fuel ih =>
    intro f n hn hpos
    rw [calcNode] at hn hpos
    rw [mem_allNodes] at hn
    rcases hn with rfl | ⟨c, hc, hn⟩
    · exact hpos
    · have hcpos : 0 < c.total := of_decide_eq_true (List.mem_filter.mp hc).2
      have hc2 := (List.mem_filter.mp hc).1
      obtain ⟨g, hg, rfl⟩ := List.mem_map.mp hc2
      exact ih g n hn hcpos

theorem alookup_append {α : Type} (m l : List (String × α)) (k : String) :
    alookup (m ++ l) k
      = match alookup m k with
        | some v => some v
        | none => alookup l k := by
  induction m with
  | nil => simp [alookup]
  | cons e rest ih =>
    by_cases he : e.1 = k
    · rw [List.cons_append, alookup_cons_pos e _ k he, alookup_cons_pos e rest k he]
    · rw [List.cons_append, alookup_cons_neg e _ k he, alookup_cons_neg e rest k he, ih]

theorem presence_aset {α : Type} (m : List (String × α)) (k k' : String) (v : α)
    (hp : (alookup m k').isSome = true) :
    (alookup (aset m k v) k').isSome = true := by
  by_cases he : k = k'
  · subst he
    rw [alookup_aset_self]
    rfl
  · rw [alookup_aset_ne m k k' v he]
    exact hp

theorem presence_ensure (h : String → String) (m : FolderMap) (r fp : String)
    (k : String) (hp : (alookup m k).isSome = true) :
    (alookup (ensureFolderExists h m r fp) k).isSome = true := by
  unfold ensureFolderExists
  split
  · exact hp
  · rw [alookup_append]
    cases hm : alookup m k with
    | some v => simp
    | none => rw [hm] at hp; simp at hp

theorem ensure_self (h : String → String) (m : FolderMap) (r fp : String) :
    (alookup (ensureFolderExists h m r fp) (folderKey r fp)).isSome = true := by
  unfold ensureFolderExists
  split
  case isTrue hc => exact hc
  case isFalse hc =>
    rw [alookup_append]
    cases hm : alookup m (folderKey r fp) with
    | some v => simp
    | none =>
      rw [alookup_cons_pos (folderKey r fp, mkFolder h r fp) [] (folderKey r fp) rfl]
      rfl

theorem presence_bump (m : FolderMap) (key k : String)
    (hp : (alookup m k).isSome = true) :
    (alookup (bumpCount m key) k).isSome = true := by
  unfold bumpCount
  cases hb : alookup m key with
  | none => exact hp
  | some f => exact presence_aset m key k _ hp

theorem presence_ensure_fold (h : String → String) (r : String) :
    ∀ (aps : List String) (m : FolderMap) (k : String),
      (alookup m k).isSome = true →
      (alookup (aps.foldl (fun acc ap => ensureFolderExists h acc r ap) m) k).isSome
        = true := by
  intro aps
  induction aps with
  | nil => intro m k hp; exact hp
  | cons ap rest ih =>
    intro m k hp
    exact ih _ k (presence_ensure h m r ap k hp)

theorem ensure_fold_mem (h : String → String) (r : String) :
    ∀ (aps : List String) (m : FolderMap) (ap : String), ap ∈ aps →
      (alookup (aps.foldl (fun acc a => ensureFolderExists h acc r a) m)
        (folderKey r ap)).isSome = true := by
  intro aps
  induction aps with
  | nil => intro m ap hm; simp at hm
  | cons a rest ih =>
    intro m ap hm
    rcases List.mem_cons.mp hm with rfl | hm2
    · exact presence_ensure_fold h r rest _ _ (ensure_self h m r ap)
    · exact ih _ ap hm2

theorem addPhotoFolders_presence (h : String → String) (m : FolderMap) (p : Photo)
    (k : String) (hp : (alookup m k).isSome = true) :
    (alookup (addPhotoFolders h m p) k).isSome = true := by
  unfold addPhotoFolders
  exact presence_bump _ _ _
    (presence_ensure_fold h p.rootPath _ _ _ (presence_ensure h m p.rootPath "" k hp))

theorem addPhotoFolders_self (h : String → String) (m : FolderMap) (p : Photo) :
    ∀ ap ∈ ("" :: ancestorPaths p.folderPath),
      (alookup (addPhotoFolders h m p) (folderKey p.rootPath ap)).isSome = true := by
  intro ap hap
  unfold addPhotoFolders
  rcases List.mem_cons.mp hap with rfl | hap2
  · exact presence_bump _ _ _
      (presence_ensure_fold h p.rootPath _ _ _ (ensure_self h m p.rootPath ""))
  · exact presence_bump _ _ _ (ensure_fold_mem h p.rootPath _ _ ap hap2)

theorem collect_fold_presence (h : String → String) :
    ∀ (photos : List Photo) (m : FolderMap) (k : String),
      (alookup m k).isSome = true →
      (alookup (photos.foldl (addPhotoFolders h) m) k).isSome = true := by
  intro photos
  induction photos with
  | nil => intro m k hp; exact hp
  | cons q rest ih =>
    intro m k hp
    exact ih _ k (addPhotoFolders_presence h m q k hp)

theorem collectFolders_ancestors (h : String → String) (photos : List Photo) :
    ∀ p ∈ photos, ∀ ap ∈ ("" :: ancestorPaths p.folderPath),
      (alookup (collectFolders h photos) (folderKey p.rootPath ap)).isSome = true := by
  have main : ∀ (phs : List Photo) (m : FolderMap), ∀ p ∈ phs,
      ∀ ap ∈ ("" :: ancestorPaths p.folderPath),
      (alookup (phs.foldl (addPhotoFolders h) m) (folderKey p.rootPath ap)).isSome
        = true := by
    intro phs
    induction phs with
    | nil => intro m p hp; simp at hp
    | cons q rest ih =>
      intro m p hp ap hap
      rcases List.mem_cons.mp hp with rfl | hp2
      · exact collect_fold_presence h rest _ _ (addPhotoFolders_self h m p ap hap)
      · exact ih _ p hp2 ap hap
  intro p hp ap hap
  exact main photos [] p hp ap hap

/-- C9: the folder derivation is a pure function of the catalog snapshot
(`buildFolderStructure` reads nothing else); its keyed map holds an entry
for every ancestor folder path of every photo (the root level included)
even when that folder holds no photos directly; in the returned pruned
tree every node's recursive total equals its direct count plus the sum of
its kept subfolders' recursive totals, and every returned node's recursive
total is strictly positive. -/
theorem folder_structure_sound (h : String → String) (photos : List Photo) :
    (∀ p ∈ photos, ∀ ap ∈ ("" :: ancestorPaths p.folderPath),
      (alookup (collectFolders h photos) (folderKey p.rootPath ap)).isSome = true) ∧
    (∀ r ∈ (buildFolderStructure h photos).1, ∀ n ∈ allNodes r,
      n.total = n.fdata.photoCount + (n.subs.map FolderNode.total).sum) ∧
    (∀ r ∈ (buildFolderStructure h photos).1, ∀ n ∈ allNodes r, 0 < n.total) := by
  refine ⟨collectFolders_ancestors h photos, ?_, ?_⟩
  · intro r hr n hn
    simp only [buildFolderStructure] at hr
    obtain ⟨hm, _⟩ := List.mem_filter.mp hr
    obtain ⟨g, hg, rfl⟩ := List.mem_map.mp hm
    exact (calcNode_nodes_sound _ _ g n hn).1
  · intro r hr n hn
    simp only [buildFolderStructure] at hr
    obtain ⟨hm, hpos⟩ := List.mem_filter.mp hr
    obtain ⟨g, hg, rfl⟩ := List.mem_map.mp hm
    exact calcNode_pos _ _ g n hn (of_decide_eq_true hpos)

/-- Witness for `folder_structure_sound`: a one-photo catalog nested two
folders deep; the root-level ancestor entry exists in the folder map. -/
theorem folder_structure_witness :
    (alookup
        (collectFolders (fun s => s)
          [⟨"p1", "a.jpg", "/r/sub/deep/a.jpg", 1, 2, 3, 4, "/r", "sub/deep"⟩])
        (folderKey "/r" "")).isSome = true :=
  (folder_structure_sound (fun s => s)
    [⟨"p1", "a.jpg", "/r/sub/deep/a.jpg", 1, 2, 3, 4, "/r", "sub/deep"⟩]).1
    ⟨"p1", "a.jpg", "/r/sub/deep/a.jpg", 1, 2, 3, 4, "/r", "sub/deep"⟩
    (List.mem_singleton.mpr rfl) "" (List.mem_cons_self _ _)

end PhotoSync
